import Mathlib

/-!
Reconciliation message-exchange engine of `conflux/recon`.

A shallow embedding of `recon/peer_reconcilate.go`: the two request handlers
(`handleReconRequestPoly`, `handleReconRequestFull`), the ratio computation
`solvex`, the session loop `reconcilate` and the byte form built by
`Reconcilate`; and of the older handlers of `recon/gossip.go`
(`handleReconRqstPoly`, `handleReconRqstFull`, `solve`).

Conventions of the embedding.

* A Go function returning `(a, b, err)` is a function returning the triple, with
  `Option` for every component that may be `nil`.
* A run-time panic (nil dereference, index out of range) is the outcome
  `Run.panicked`.
* Go `int` is `Int`. The product `ThreshMult*MBar` and the difference
  `remoteSize-localSize` are taken in 64-bit two's complement (`wrapInt`).
  The processed-element counter is kept exact: every increment is the size of
  a set held in memory, built from elements received on the connection, so
  the counter stays far below `2^63`.
* The collaborators that live outside the translated files are parameters:
  the prefix tree and its nodes (`PrefixTree`, `PrefixNode`), the field
  division and the algebraic solver (`Solver`), the configuration (`Settings`)
  and the connection (`reads`, `Writer`).
-/

namespace Recon

/-! ## Data model -/

/-- Field element `conflux.Zp`: a residue `n` together with its modulus `P`. -/
structure Zp where
  n : Nat
  P : Nat
deriving DecidableEq, Repr

/-- Modelled from the spec: the set container `conflux.ZSet`, whose
declaration is outside the translated files. "A set of Elements (unique,
unordered)" which "supports union, set difference, and cardinality". -/
abbrev ZSet := Finset Zp

/-- Modelled from the spec: `conflux.NewZSet(elements...)`, the set holding
exactly the listed elements. -/
def NewZSet (elements : List Zp) : ZSet := elements.toFinset

/-- Modelled from the spec: `conflux.ZSetDiff(a, b)`, the set difference
`a − b`. -/
def ZSetDiff (a b : ZSet) : ZSet := a \ b

/-- Modelled from the spec: `(*ZSet).AddAll`, the union with another set. -/
def ZSet.AddAll (zs other : ZSet) : ZSet := zs ∪ other

/-- Modelled from the spec: `(*ZSet).Len`, the cardinality as a Go `int`. -/
def ZSet.Len (zs : ZSet) : Int := (zs.card : Int)

/-- A prefix of the tree, `*conflux.Bitstring`. -/
abbrev Bitstring := List Bool

/-- Go `error` values that occur in the session engine. `wrapped` is what
`errors.Wrap` / `errors.Wrapf` build: an error carrying its cause. -/
inductive Error where
  | ErrNodeNotFound
  | ErrReconRqstPolyNotFound
  | ErrLowMBar
  | EOF
  | other (code : Nat)
  | unexpectedMessage (typeName : String)
  | wrapped (cause : Error) (text : String)
deriving DecidableEq, Repr

/-- The function `errgo.Cause`: the cause carried by a wrapping error, the
error itself otherwise. -/
def Error.Cause : Error → Error
  | .wrapped cause _ => cause
  | e => e

/-- The wire messages `ReconMsg`. -/
inductive ReconMsg where
  | ReconRqstPoly (Prefix : Bitstring) (Size : Int) (Samples : List Zp)
  | ReconRqstFull (Prefix : Bitstring) (Elements : ZSet)
  | Elements (zset : ZSet)
  | FullElements (zset : ZSet)
  | SyncFail
  | Done
  | Flush
  | Error (text : String)
deriving DecidableEq

/-- The Go type name that `%T` prints for a message. -/
def ReconMsg.typeName : ReconMsg → String
  | .ReconRqstPoly _ _ _ => "*recon.ReconRqstPoly"
  | .ReconRqstFull _ _ => "*recon.ReconRqstFull"
  | .Elements _ => "*recon.Elements"
  | .FullElements _ => "*recon.FullElements"
  | .SyncFail => "*recon.SyncFail"
  | .Done => "*recon.Done"
  | .Flush => "*recon.Flush"
  | .Error _ => "*recon.Error"

/-- Outcome of running a Go function: it returns a value or it panics. -/
inductive Run (α : Type) where
  | returned (a : α)
  | panicked
deriving DecidableEq

/-- The interface `PrefixNode` as the values its methods return. -/
structure PrefixNode where
  SValues : List Zp
  Size : Int
  IsLeaf : Bool
  Key : Bitstring
  Elements : Except Error (List Zp)

/-- The interface `PrefixTree`: the evaluation points and the node lookup,
which returns a node (possibly `nil`) and an error (possibly `nil`). -/
structure PrefixTree where
  Points : List Zp
  Node : Bitstring → Option PrefixNode × Option Error

/-- The configuration values the handlers read from `recon.Settings`. -/
structure Settings where
  ThreshMult : Int
  MBar : Int

/-- The algebraic layer of package `conflux` used by `solvex`:
`Div x y` is `conflux.Z(x.P).Div(x, y)` and `Reconcile` is the solver, which
returns its two sets or an error. -/
structure Solver where
  Div : Zp → Zp → Zp
  Reconcile : List Zp → List Zp → Int → Except Error (ZSet × ZSet)

/-- The receiver `*Peer`, with the algebraic layer it calls into. -/
structure Peer where
  ptree : PrefixTree
  settings : Settings
  conflux : Solver

/-- Reduction of an integer to the 64-bit two's complement range of Go `int`. -/
def wrapInt (x : Int) : Int := (x + 2 ^ 63) % 2 ^ 64 - 2 ^ 63

/-- Go `a * b` on `int`. -/
def mulInt (a b : Int) : Int := wrapInt (a * b)

/-- Go `a - b` on `int`. -/
def subInt (a b : Int) : Int := wrapInt (a - b)

/-! ## The exchange coordinator -/

/-- The loop of `solvex`: `values = append(values, Z(x.P).Div(x, localSamples[i]))`
for every remote sample; `localSamples[i]` panics when `i` is out of range. -/
def solvexValues (sv : Solver) : List Zp → List Zp → Run (List Zp)
  | [], _ => .returned []
  | _ :: _, [] => .panicked
  | x :: remoteSamples, y :: localSamples =>
    match solvexValues sv remoteSamples localSamples with
    | .returned values => .returned (sv.Div x y :: values)
    | .panicked => .panicked

/-- The method `solvex`. -/
def solvex (p : Peer) (remoteSamples localSamples : List Zp) (remoteSize localSize : Int)
    (points : List Zp) : Run (Except Error (ZSet × ZSet)) :=
  match solvexValues p.conflux remoteSamples localSamples with
  | .panicked => .panicked
  | .returned values =>
    .returned (p.conflux.Reconcile values points (subInt remoteSize localSize))

/-- What a handler returns: `(*conflux.ZSet, ReconMsg, error)`. -/
abbrev HandlerResult := Option ZSet × Option ReconMsg × Option Error

/-- The method `handleReconRequestPoly` applied to `&ReconRqstPoly{Prefix, Size, Samples}`. -/
def handleReconRequestPoly (p : Peer) (rpPrefix : Bitstring) (rpSize : Int)
    (rpSamples : List Zp) : Run HandlerResult :=
  let remoteSize := rpSize
  let points := p.ptree.Points
  let remoteSamples := rpSamples
  let (nodeOpt, err) := p.ptree.Node rpPrefix
  if err = some Error.ErrNodeNotFound then
    .returned (none, none, some Error.ErrReconRqstPolyNotFound)
  else
    match nodeOpt with
    | none => .panicked
    | some node =>
      let localSamples := node.SValues
      let localSize := node.Size
      match solvex p remoteSamples localSamples remoteSize localSize points with
      | .panicked => .panicked
      | .returned (.error err) =>
        if err.Cause = Error.ErrLowMBar then
          if node.IsLeaf || decide (node.Size < mulInt p.settings.ThreshMult p.settings.MBar) then
            match node.Elements with
            | .error err => .returned (none, none, some err)
            | .ok elements =>
              .returned (some (NewZSet []), some (.FullElements (NewZSet elements)), none)
          else
            .returned (some (NewZSet []), some .SyncFail, none)
        else
          .returned (some (NewZSet []), some .SyncFail, none)
      | .returned (.ok (remoteSet, localSet)) =>
        .returned (some remoteSet, some (.Elements localSet), none)

/-- The method `handleReconRequestFull` applied to `&ReconRqstFull{Prefix, Elements}`. -/
def handleReconRequestFull (p : Peer) (rfPrefix : Bitstring) (rfElements : ZSet) :
    Run HandlerResult :=
  let finish (localset : ZSet) : Run HandlerResult :=
    let localNeeds := ZSetDiff rfElements localset
    let remoteNeeds := ZSetDiff localset rfElements
    .returned (some localNeeds, some (.Elements remoteNeeds), none)
  let (nodeOpt, err) := p.ptree.Node rfPrefix
  if err = some Error.ErrNodeNotFound then
    finish (NewZSet [])
  else if err ≠ none then
    .returned (none, none, err)
  else
    match nodeOpt with
    | none => .panicked
    | some node =>
      match node.Elements with
      | .error err => .returned (none, none, some err)
      | .ok elements => finish (NewZSet elements)

/-! ## The session driver -/

/-- The connection as the session sees it: `reads` lists the results of the
successive `ReadMsg` calls (once it is exhausted `ReadMsg` fails with `EOF`);
`writeFail k` is the error, if any, of the `k`-th call on the writing side
(`WriteMsg` or `Flush`, counted from 0). -/
structure Conn where
  reads : List (Except Error ReconMsg)
  writeFail : Nat → Option Error

/-- The buffered writer `w := bufio.NewWriter(conn)`: `buffered` holds the
messages accepted by `WriteMsg` and not yet flushed, `sent` the messages
delivered to the connection, `calls` the number of calls made so far. -/
structure Writer where
  writeFail : Nat → Option Error
  calls : Nat
  buffered : List ReconMsg
  sent : List ReconMsg

/-- The call `WriteMsg(w, message)`. -/
def WriteMsg (w : Writer) (message : ReconMsg) : Writer × Option Error :=
  match w.writeFail w.calls with
  | some err => ({ w with calls := w.calls + 1 }, some err)
  | none => ({ w with calls := w.calls + 1, buffered := w.buffered ++ [message] }, none)

/-- The call `w.Flush()`. -/
def Writer.Flush (w : Writer) : Writer × Option Error :=
  match w.writeFail w.calls with
  | some err => ({ w with calls := w.calls + 1 }, some err)
  | none => ({ w with calls := w.calls + 1, buffered := [], sent := w.sent ++ w.buffered }, none)

/-- The variables of `reconcilate` that live across loop iterations. -/
structure Session where
  localNeeds : ZSet
  count : Int
  pendingMessages : List ReconMsg
  w : Writer

/-- What `reconcilate` returns: `(*conflux.ZSet, bool, error)`. -/
abbrev SessionResult := Option ZSet × Bool × Option Error

/-- Effect of one loop iteration: the loop goes on, or the function exits. -/
inductive Step where
  | next (s : Session)
  | exit (s : Session) (r : Run SessionResult)

/-- The loop `for _, message := range pendingMessages { WriteMsg(w, message) }`,
which stops at the first error. -/
def writePending : List ReconMsg → Writer → Writer × Option Error
  | [], w => (w, none)
  | message :: rest, w =>
    match WriteMsg w message with
    | (w1, some err) => (w1, some err)
    | (w1, none) => writePending rest w1

/-- The statements shared by the two request cases once the handler has
returned: error check, `AddAll`, `count += elements.Len()`, `append`. With a
`nil` error, a `nil` set is a nil dereference in `AddAll`; a `nil` message,
which no handler returns (`handler_returns_values`), is given the same
outcome. -/
def accumulate (s : Session) : Run HandlerResult → Step
  | .panicked => .exit s .panicked
  | .returned (_, _, some err) => .exit s (.returned (none, false, some err))
  | .returned (some elements, some message, none) =>
    .next { s with
      localNeeds := s.localNeeds.AddAll elements
      count := s.count + elements.Len
      pendingMessages := s.pendingMessages ++ [message] }
  | .returned (_, _, none) => .exit s .panicked

/-- The body of the loop of `reconcilate`, given the result of `ReadMsg(conn)`. -/
def iteration (p : Peer) (s : Session) : Except Error ReconMsg → Step
  | .error err => .exit s (.returned (none, false, some (.wrapped err "read messagw failed")))
  | .ok (.ReconRqstPoly pfx size samples) =>
    accumulate s (handleReconRequestPoly p pfx size samples)
  | .ok (.ReconRqstFull pfx elements) =>
    accumulate s (handleReconRequestFull p pfx elements)
  | .ok .Done => .exit s (.returned (some s.localNeeds, true, none))
  | .ok .Flush =>
    match writePending s.pendingMessages s.w with
    | (w1, some err) => .exit { s with w := w1 } (.returned (none, false, some err))
    | (w1, none) =>
      match w1.Flush with
      | (w2, some err) => .exit { s with w := w2 } (.returned (none, false, some err))
      | (w2, none) => .next { s with w := w2, pendingMessages := [] }
  | .ok m => .exit s (.returned (none, false, some (.unexpectedMessage m.typeName)))

/-- Everything observable when `reconcilate` is over: what it returned, the
final values of its variables and the read results it did not consume. -/
structure Final where
  result : Run SessionResult
  session : Session
  unread : List (Except Error ReconMsg)

/-- The loop `for count < limit { ... }` of `reconcilate`, followed by the
final `return localNeeds, false, nil`. -/
def reconcilateLoop (p : Peer) (limit : Int) : List (Except Error ReconMsg) → Session → Final
  | [], s =>
    if s.count < limit then
      ⟨.returned (none, false, some (.wrapped .EOF "read messagw failed")), s, []⟩
    else ⟨.returned (some s.localNeeds, false, none), s, []⟩
  | read :: rest, s =>
    if s.count < limit then
      match iteration p s read with
      | .next s1 => reconcilateLoop p limit rest s1
      | .exit s1 r => ⟨r, s1, rest⟩
    else ⟨.returned (some s.localNeeds, false, none), s, read :: rest⟩

/-- The variables of `reconcilate` before the loop. -/
def Session.start (conn : Conn) : Session :=
  { localNeeds := NewZSet []
    count := 0
    pendingMessages := []
    w := { writeFail := conn.writeFail, calls := 0, buffered := [], sent := [] } }

/-- The method `reconcilate` (its parameter `remoteConfig` is not used). -/
def reconcilate (p : Peer) (conn : Conn) (limit : Int) : Final :=
  reconcilateLoop p limit conn.reads (Session.start conn)

/-! ## Vocabulary for statements about a session -/

/-- The coordinator call that `reconcilate` makes for a request message. -/
def handle (p : Peer) : ReconMsg → Option (Run HandlerResult)
  | .ReconRqstPoly pfx size samples => some (handleReconRequestPoly p pfx size samples)
  | .ReconRqstFull pfx elements => some (handleReconRequestFull p pfx elements)
  | _ => none

/-- The locally-needed set and the response message of a request that the
coordinator handles without error; `none` for any other message. -/
def outcome (p : Peer) (m : ReconMsg) : Option (ZSet × ReconMsg) :=
  match handle p m with
  | some (.returned (some elements, some message, none)) => some (elements, message)
  | _ => none

/-- The locally-needed set the coordinator returns for a message (empty when
the message is not a request handled without error). -/
def locallyNeeded (p : Peer) (m : ReconMsg) : ZSet :=
  match outcome p m with
  | some (elements, _) => elements
  | none => ∅

/-- The response message the coordinator returns for a message, as a list of
length one (empty when the message is not a request handled without error). -/
def responses (p : Peer) (m : ReconMsg) : List ReconMsg :=
  match outcome p m with
  | some (_, message) => [message]
  | none => []

/-- Union of the locally-needed sets returned for the messages of a sequence. -/
def needUnion (p : Peer) : List ReconMsg → ZSet
  | [] => ∅
  | m :: ms => locallyNeeded p m ∪ needUnion p ms

/-- Value of the processed-element counter after the messages of a sequence:
the sum of the sizes of the locally-needed sets returned for them. -/
def counter (p : Peer) : List ReconMsg → Int
  | [] => 0
  | m :: ms => (locallyNeeded p m).Len + counter p ms

/-- The loop of `reconcilate` run over messages that were read successfully:
`some s1` when every one of them was processed (the counter was below the
limit before each of them and no iteration left the function) and the loop is
back at its head with variables `s1`. -/
def advance (p : Peer) (limit : Int) : List ReconMsg → Session → Option Session
  | [], s => some s
  | m :: ms, s =>
    if s.count < limit then
      match iteration p s (.ok m) with
      | .next s1 => advance p limit ms s1
      | .exit _ _ => none
    else none

/-- The messages delivered to the connection and the pending queue after a
sequence of processed messages, from their values before it. -/
def flushTrack (p : Peer) : List ReconMsg → List ReconMsg × List ReconMsg →
    List ReconMsg × List ReconMsg
  | [], st => st
  | m :: ms, (sent, pending) =>
    if m = .Flush then flushTrack p ms (sent ++ pending, [])
    else flushTrack p ms (sent, pending ++ responses p m)

/-! ## Concrete peers and connections -/

/-- Element `a`. -/
def za : Zp := ⟨1, 7⟩
/-- Element `b`. -/
def zb : Zp := ⟨2, 7⟩
/-- Element `c`. -/
def zc : Zp := ⟨3, 7⟩
/-- Element `d`. -/
def zd : Zp := ⟨4, 7⟩
/-- Element `e`. -/
def ze : Zp := ⟨5, 7⟩

/-- A solver that always reports insufficient degree. -/
def lowMBarSolver : Solver := ⟨fun x _ => x, fun _ _ _ => .error .ErrLowMBar⟩

/-- A solver that always fails with an error that is not `ErrLowMBar`. -/
def brokenSolver : Solver := ⟨fun x _ => x, fun _ _ _ => .error (.other 9)⟩

/-- A solver that always succeeds with the pair `({a}, {b})`. -/
def fixedSolver : Solver := ⟨fun x _ => x, fun _ _ _ => .ok ({za}, {zb})⟩

/-- A leaf node at prefix `[0]` holding `{a, b, c}`. -/
def nodeABC : PrefixNode := ⟨[], 3, true, [false], .ok [za, zb, zc]⟩

/-- A leaf node with five elements. -/
def leaf5 : PrefixNode := ⟨[], 5, true, [false], .ok [za, zb, zc, zd, ze]⟩

/-- An inner node of size 10. -/
def inner10 : PrefixNode := ⟨[], 10, false, [false], .ok []⟩

/-- A node whose element enumeration fails. -/
def nodeUnreadable : PrefixNode := ⟨[], 3, true, [false], .error (.other 3)⟩

/-- A tree with the given node at prefix `[0]` and no other node. -/
def treeWith (node : PrefixNode) : PrefixTree :=
  ⟨[], fun pfx => if pfx = [false] then (some node, none) else (none, some .ErrNodeNotFound)⟩

/-- A tree whose lookup fails with a storage error. -/
def treeBroken : PrefixTree := ⟨[], fun _ => (none, some (.other 5))⟩

/-- A peer with threshold `ThreshMult * MBar = 2 * 5 = 10`. -/
def peerWith (node : PrefixNode) (sv : Solver) : Peer := ⟨treeWith node, ⟨2, 5⟩, sv⟩

/-- A connection on which every write succeeds. -/
def connOf (msgs : List ReconMsg) : Conn := ⟨msgs.map .ok, fun _ => none⟩

/-- The first messages of the example session: a full request for a prefix
without node, then a `Flush`. -/
def batchMsgsPre : List ReconMsg := [.ReconRqstFull [true] {zd}, .Flush]

/-- The requests of the example session that follow its first `Flush`. -/
def batchMsgs : List ReconMsg :=
  [.ReconRqstFull [false] {zb, zc, zd}, .ReconRqstPoly [false] 7 []]

/-- The peer of the example session: `{a, b, c}` at `[0]`, a solver that
reports insufficient degree. -/
def peerABC : Peer := peerWith nodeABC lowMBarSolver

/-- The writer of a connection on which every write succeeds, after `calls`
calls that delivered `sent`. -/
def writerAfter (calls : Nat) (sent : List ReconMsg) : Writer :=
  { writeFail := fun _ => none, calls := calls, buffered := [], sent := sent }

/-- The variables of the example session after `batchMsgsPre ++ batchMsgs`. -/
def sessionAfterBatch : Session :=
  { localNeeds := {zd}
    count := 2
    pendingMessages := [.Elements {za}, .FullElements {za, zb, zc}]
    w := writerAfter 2 [.Elements ∅] }

/-- The variables of a session after one full request for a prefix without
node and remote set `{b, c, d}`. -/
def sessionAfterBCD : Session :=
  { localNeeds := {zb, zc, zd}
    count := 3
    pendingMessages := [.Elements ∅]
    w := writerAfter 0 [] }

/-- The text `err.Error()` of the errors built in `reconcilate`:
`errors.Errorf("got unexpected message %T", m)` and `errors.Wrap(err, text)`.
The texts of the errors declared outside the translated files are given by
`base`. -/
def Error.text (base : Error → String) : Error → String
  | .unexpectedMessage typeName => "got unexpected message " ++ typeName
  | .wrapped cause text => text ++ ": " ++ Error.text base cause
  | e => base e

/-- A tree whose lookup returns a node together with a storage error. -/
def treeStale : PrefixTree := ⟨[], fun _ => (some leaf5, some (.other 5))⟩

/-- A full request for a prefix without node, with remote set `{d}`. -/
def fullD : ReconMsg := .ReconRqstFull [true] {zd}

/-! ## The byte form of the needed elements -/

/-- Modelled from the spec: `(*Zp).Bytes()`, which is declared outside the
translated files: "the field-element's canonical big-endian encoding", that
is the base-256 digits of the value, most significant first, without padding
(no byte at all for 0). -/
def Zp.Bytes (z : Zp) : List Nat := (Nat.digits 256 z.n).reverse

/-- The body of the loop over `localNeeds.Items()` in `Reconcilate`, applied
to `zb := element.Bytes()`: append zero bytes while `len(zb) < SksZpNbytes`,
then `zb[:len(zb)-1]`, which panics on an empty slice. The constant
`SksZpNbytes` is declared outside the translated files and is a parameter. -/
def elementBytes (SksZpNbytes : Nat) (zb : List Nat) : Run (List Nat) :=
  let padded := zb ++ List.replicate (SksZpNbytes - zb.length) 0
  if padded.length = 0 then .panicked else .returned padded.dropLast

/-- The bytes `Reconcilate` emits for one needed element. -/
def emittedBytes (SksZpNbytes : Nat) (element : Zp) : Run (List Nat) :=
  elementBytes SksZpNbytes element.Bytes

/-- The loop `for _, element := range localNeeds.Items() { ... }` of
`Reconcilate`, which builds `result`. -/
def resultBytes (SksZpNbytes : Nat) : List Zp → Run (List (List Nat))
  | [] => .returned []
  | element :: rest =>
    match emittedBytes SksZpNbytes element with
    | .panicked => .panicked
    | .returned zb =>
      match resultBytes SksZpNbytes rest with
      | .panicked => .panicked
      | .returned result => .returned (zb :: result)

/-- The modulus of the SKS field, a prime of 129 bits. -/
def P_SKS : Nat := 530512889551602322505127520352579437339

/-- The element 1 of the SKS field. -/
def sksOne : Zp := ⟨1, P_SKS⟩

/-- The element 256 of the SKS field. -/
def sks256 : Zp := ⟨256, P_SKS⟩

/-- The element `2^128 + 1` of the SKS field. -/
def sksHigh : Zp := ⟨340282366920938463463374607431768211457, P_SKS⟩

/-- A solver whose `Div` is the division of the prime field (multiplication
by the power `P - 2`) and whose `Reconcile` returns its arguments as sets. -/
def fieldSolver : Solver :=
  ⟨fun x y => ⟨(x.n * y.n ^ (x.P - 2)) % x.P, x.P⟩,
   fun values points _ => .ok (values.toFinset, points.toFinset)⟩

/-! ## The handlers of `gossip.go` -/

/-- The struct `msgProgress` of `gossip.go`. -/
structure msgProgress where
  elements : Option ZSet
  err : Option Error
  flush : Bool
  messages : List ReconMsg
deriving DecidableEq

/-- The interface `PrefixNode` as `gossip.go` uses it: `Elements()` returns
the elements only. -/
structure GossipNode where
  SValues : List Zp
  Size : Int
  IsLeaf : Bool
  Key : Bitstring
  Elements : List Zp

/-- The receiver `*Peer` as `gossip.go` uses it: `p.Points()`, `p.Node(prefix)`,
`p.ThreshMult()`, `p.MBar()`, and the algebraic layer it calls into. -/
structure GossipPeer where
  Points : List Zp
  Node : Bitstring → Option GossipNode × Option Error
  ThreshMult : Int
  MBar : Int
  conflux : Solver

/-- The method `solve` of `gossip.go`. -/
def solve (g : GossipPeer) (remoteSamples localSamples : List Zp)
    (remoteSize localSize : Int) (points : List Zp) : Run (Except Error (ZSet × ZSet)) :=
  match solvexValues g.conflux remoteSamples localSamples with
  | .panicked => .panicked
  | .returned values =>
    .returned (g.conflux.Reconcile values points (subInt remoteSize localSize))

/-- The method `handleReconRqstPoly` of `gossip.go`. Its sentinels
`PNodeNotFound`, `ReconRqstPolyNotFound` and `LowMBar` are the errors that
`peer_reconcilate.go` names `ErrNodeNotFound`, `ErrReconRqstPolyNotFound` and
`ErrLowMBar`. -/
def handleReconRqstPoly (g : GossipPeer) (rpPrefix : Bitstring) (rpSize : Int)
    (rpSamples : List Zp) : Run msgProgress :=
  let remoteSize := rpSize
  let points := g.Points
  let remoteSamples := rpSamples
  let (nodeOpt, err) := g.Node rpPrefix
  if err = some Error.ErrNodeNotFound then
    .returned { elements := none, err := some Error.ErrReconRqstPolyNotFound, flush := false,
                messages := [] }
  else
    match nodeOpt with
    | none => .panicked
    | some node =>
      let localSamples := node.SValues
      let localSize := node.Size
      match solve g remoteSamples localSamples remoteSize localSize points with
      | .panicked => .panicked
      | .returned (.error err) =>
        if err = Error.ErrLowMBar then
          if node.IsLeaf || decide (node.Size < mulInt g.ThreshMult g.MBar) then
            .returned { elements := some (NewZSet []), err := none, flush := false,
                        messages := [.FullElements (NewZSet node.Elements)] }
          else
            .returned { elements := some (NewZSet []), err := none, flush := false,
                        messages := [.SyncFail] }
        else
          .returned { elements := some (NewZSet []), err := none, flush := false,
                      messages := [.SyncFail] }
      | .returned (.ok (remoteSet, localSet)) =>
        .returned { elements := some remoteSet, err := none, flush := false,
                    messages := [.Elements localSet] }

/-- The method `handleReconRqstFull` of `gossip.go`. -/
def handleReconRqstFull (g : GossipPeer) (rfPrefix : Bitstring) (rfElements : ZSet) :
    Run msgProgress :=
  let finish (localset : ZSet) : Run msgProgress :=
    let localNeeds := ZSetDiff rfElements localset
    let remoteNeeds := ZSetDiff localset rfElements
    .returned { elements := some localNeeds, err := none, flush := false,
                messages := [.Elements remoteNeeds] }
  let (nodeOpt, err) := g.Node rfPrefix
  if err = some Error.ErrNodeNotFound then
    finish (NewZSet [])
  else if err ≠ none then
    .returned { elements := none, err := err, flush := false, messages := [] }
  else
    match nodeOpt with
    | none => .panicked
    | some node => finish (NewZSet node.Elements)

/-- A node seen through the interface of `gossip.go`; where the enumeration
with error result fails there is no list to hand over, and the list is
empty. -/
def PrefixNode.gossip (node : PrefixNode) : GossipNode :=
  { SValues := node.SValues
    Size := node.Size
    IsLeaf := node.IsLeaf
    Key := node.Key
    Elements := match node.Elements with
      | .ok elements => elements
      | .error _ => [] }

/-- The same prefix tree, settings and solver, seen by the receiver of
`gossip.go`. -/
def Peer.gossip (p : Peer) : GossipPeer :=
  { Points := p.ptree.Points
    Node := fun pfx => ((p.ptree.Node pfx).1.map PrefixNode.gossip, (p.ptree.Node pfx).2)
    ThreshMult := p.settings.ThreshMult
    MBar := p.settings.MBar
    conflux := p.conflux }

/-- The two call paths agree on a request: both panic, or both return an
error, or both return no error, the same locally-needed set and the same
single response message. -/
def agree : Run HandlerResult → Run msgProgress → Bool
  | .panicked, .panicked => true
  | .returned (_, _, some _), .returned mp => mp.err.isSome
  | .returned (some elements, some message, none), .returned mp =>
    decide (mp.err = none ∧ mp.elements = some elements ∧ mp.messages = [message])
  | _, _ => false

/-- A solver that reports insufficient degree through a wrapping error. -/
def wrappingSolver : Solver :=
  ⟨fun x _ => x, fun _ _ _ => .error (.wrapped .ErrLowMBar "reconcile")⟩

/-! ## The exchange coordinator: results -/

/-- The product of two settings that fits in 64 bits is computed exactly. -/
theorem mulInt_eq_mul (a b : Int) (hlo : -2 ^ 63 ≤ a * b) (hhi : a * b < 2 ^ 63) :
    mulInt a b = a * b := by
  unfold mulInt wrapInt
  have h : (a * b + 2 ^ 63) % 2 ^ 64 = a * b + 2 ^ 63 :=
    Int.emod_eq_of_lt (by omega) (by omega)
  omega

/-- C1, as the claim states it, fails: `handleReconRequestFull` returns an
error, and neither a set nor a message, when the node's element enumeration
fails and when the tree lookup fails with an error other than
`ErrNodeNotFound`. -/
theorem handleReconRequestFull_error_counterexample :
    handleReconRequestFull (peerWith nodeUnreadable lowMBarSolver) [false] {zb, zc, zd}
        = .returned (none, none, some (.other 3))
      ∧ handleReconRequestFull ⟨treeBroken, ⟨2, 5⟩, lowMBarSolver⟩ [false] {zb, zc, zd}
        = .returned (none, none, some (.other 5)) := by
  decide

/-- C1 (amended): for every remote set `B` and every prefix at which the tree
either reports the node as not found (then `A = ∅`) or yields a node whose
enumeration succeeds (then `A` is the set of the enumerated elements),
`handleReconRequestFull` returns no error, `locallyNeeded = B − A` and the
response `Elements{A − B}`, and the two sets are disjoint. -/
theorem handleReconRequestFull_diff (p : Peer) (pfx : Bitstring) (A B : ZSet)
    (hA : ((p.ptree.Node pfx).2 = some .ErrNodeNotFound ∧ A = ∅) ∨
      ∃ node elements, p.ptree.Node pfx = (some node, none) ∧
        node.Elements = .ok elements ∧ A = elements.toFinset) :
    handleReconRequestFull p pfx B = .returned (some (B \ A), some (.Elements (A \ B)), none)
      ∧ Disjoint (B \ A) (A \ B) := by
  refine ⟨?_, ?_⟩
  · rcases hA with ⟨hnf, rfl⟩ | ⟨node, elements, hnode, hel, rfl⟩
    · unfold handleReconRequestFull
      rcases hlook : p.ptree.Node pfx with ⟨nodeOpt, err⟩
      rw [hlook] at hnf
      simp only at hnf
      subst hnf
      simp [ZSetDiff, NewZSet]
    · unfold handleReconRequestFull
      rw [hnode]
      simp [ZSetDiff, NewZSet, hel]
  · rw [Finset.disjoint_left]
    intro x hx hx2
    rw [Finset.mem_sdiff] at hx hx2
    exact hx.2 hx2.1

/-- The example of C1: the node at `[0]` holds `{a, b, c}` and the remote sends
`{b, c, d}`; the handler returns `locallyNeeded = {d}` and `Elements{{a}}`. -/
theorem handleReconRequestFull_diff_witness :
    handleReconRequestFull (peerWith nodeABC lowMBarSolver) [false] {zb, zc, zd}
        = .returned (some ({zb, zc, zd} \ [za, zb, zc].toFinset),
            some (.Elements ([za, zb, zc].toFinset \ {zb, zc, zd})), none)
      ∧ Disjoint (({zb, zc, zd} : ZSet) \ [za, zb, zc].toFinset)
          ([za, zb, zc].toFinset \ {zb, zc, zd})
      ∧ ({zb, zc, zd} : ZSet) \ [za, zb, zc].toFinset = {zd}
      ∧ ([za, zb, zc].toFinset : ZSet) \ {zb, zc, zd} = {za} :=
  ⟨(handleReconRequestFull_diff (peerWith nodeABC lowMBarSolver) [false]
      [za, zb, zc].toFinset {zb, zc, zd}
      (Or.inr ⟨nodeABC, [za, zb, zc], rfl, rfl, rfl⟩)).1,
   (handleReconRequestFull_diff (peerWith nodeABC lowMBarSolver) [false]
      [za, zb, zc].toFinset {zb, zc, zd}
      (Or.inr ⟨nodeABC, [za, zb, zc], rfl, rfl, rfl⟩)).2,
   by decide, by decide⟩

/-- C2: when the node exists, the solver reports insufficient degree
(`errgo.Cause(err) == ErrLowMBar`), the node is a leaf or its size is below
`ThreshMult*MBar` (the Go product), and the enumeration of the node succeeds,
`handleReconRequestPoly` returns no error, an empty locally-needed set and
`FullElements` holding exactly the enumerated elements. -/
theorem handleReconRequestPoly_lowMBar_fullElements (p : Peer) (pfx : Bitstring) (size : Int)
    (samples : List Zp) (node : PrefixNode) (err : Error) (elements : List Zp)
    (hnode : p.ptree.Node pfx = (some node, none))
    (hsolve : solvex p samples node.SValues size node.Size p.ptree.Points
      = .returned (.error err))
    (hlow : err.Cause = .ErrLowMBar)
    (hsmall : node.IsLeaf = true ∨ node.Size < mulInt p.settings.ThreshMult p.settings.MBar)
    (helements : node.Elements = .ok elements) :
    handleReconRequestPoly p pfx size samples
        = .returned (some ∅, some (.FullElements elements.toFinset), none)
      ∧ ∀ x, x ∈ elements.toFinset ↔ x ∈ elements := by
  refine ⟨?_, fun x => List.mem_toFinset⟩
  unfold handleReconRequestPoly
  rw [hnode]
  simp only [hsolve, hlow, helements]
  have hcond : (node.IsLeaf ||
      decide (node.Size < mulInt p.settings.ThreshMult p.settings.MBar)) = true := by
    rcases hsmall with h | h
    · simp [h]
    · simp [h]
  simp [hcond, NewZSet]

/-- The example of C2: a leaf with five elements and threshold `2 * 5 = 10`. -/
theorem handleReconRequestPoly_lowMBar_fullElements_witness :
    handleReconRequestPoly (peerWith leaf5 lowMBarSolver) [false] 7 []
        = .returned (some ∅, some (.FullElements [za, zb, zc, zd, ze].toFinset), none)
      ∧ ∀ x, x ∈ [za, zb, zc, zd, ze].toFinset ↔ x ∈ [za, zb, zc, zd, ze] :=
  handleReconRequestPoly_lowMBar_fullElements (peerWith leaf5 lowMBarSolver) [false] 7 []
    leaf5 .ErrLowMBar [za, zb, zc, zd, ze] rfl rfl (by decide) (Or.inl (by decide)) rfl

/-- C3: when the node exists, the solver reports insufficient degree, the node
is not a leaf and its size is at least `ThreshMult*MBar` (the Go product;
equality included), `handleReconRequestPoly` returns no error, an empty
locally-needed set and `SyncFail`. -/
theorem handleReconRequestPoly_lowMBar_syncFail (p : Peer) (pfx : Bitstring) (size : Int)
    (samples : List Zp) (node : PrefixNode) (err : Error)
    (hnode : p.ptree.Node pfx = (some node, none))
    (hsolve : solvex p samples node.SValues size node.Size p.ptree.Points
      = .returned (.error err))
    (hlow : err.Cause = .ErrLowMBar)
    (hleaf : node.IsLeaf = false)
    (hbig : mulInt p.settings.ThreshMult p.settings.MBar ≤ node.Size) :
    handleReconRequestPoly p pfx size samples = .returned (some ∅, some .SyncFail, none) := by
  unfold handleReconRequestPoly
  rw [hnode]
  simp only [hsolve, hlow]
  have hcond : (node.IsLeaf ||
      decide (node.Size < mulInt p.settings.ThreshMult p.settings.MBar)) = false := by
    simp [hleaf, hbig]
  simp [hcond, NewZSet]

/-- An inner node whose size equals the threshold `2 * 5 = 10` gets `SyncFail`. -/
theorem handleReconRequestPoly_lowMBar_syncFail_witness :
    handleReconRequestPoly (peerWith inner10 lowMBarSolver) [false] 7 []
      = .returned (some ∅, some .SyncFail, none) :=
  handleReconRequestPoly_lowMBar_syncFail (peerWith inner10 lowMBarSolver) [false] 7 []
    inner10 .ErrLowMBar rfl rfl (by decide) (by decide) (by decide)

/-- C4, as the claim states it, fails: with a solver whose result pair is
`({a}, {b})` the handler returns the first set `{a}` as locally needed and
sends the second set `{b}`, not the other way round. -/
theorem handleReconRequestPoly_order_counterexample :
    solvex (peerWith nodeABC fixedSolver) [] nodeABC.SValues 7 nodeABC.Size
        (peerWith nodeABC fixedSolver).ptree.Points = .returned (.ok ({za}, {zb}))
      ∧ handleReconRequestPoly (peerWith nodeABC fixedSolver) [false] 7 []
        = .returned (some {za}, some (.Elements {zb}), none)
      ∧ handleReconRequestPoly (peerWith nodeABC fixedSolver) [false] 7 []
        ≠ .returned (some {zb}, some (.Elements {za}), none) :=
  ⟨rfl, by decide, by decide⟩

/-- C4 (amended): when the node exists and the solver succeeds with the pair
`(first, second)`, `handleReconRequestPoly` returns no error, the first set as
the locally-needed set and the response `Elements{second}`. -/
theorem handleReconRequestPoly_solved (p : Peer) (pfx : Bitstring) (size : Int)
    (samples : List Zp) (node : PrefixNode) (first second : ZSet)
    (hnode : p.ptree.Node pfx = (some node, none))
    (hsolve : solvex p samples node.SValues size node.Size p.ptree.Points
      = .returned (.ok (first, second))) :
    handleReconRequestPoly p pfx size samples
      = .returned (some first, some (.Elements second), none) := by
  unfold handleReconRequestPoly
  rw [hnode]
  simp [hsolve]

/-- A solver result `({a}, {b})` gives `locallyNeeded = {a}` and `Elements{{b}}`. -/
theorem handleReconRequestPoly_solved_witness :
    handleReconRequestPoly (peerWith nodeABC fixedSolver) [false] 7 []
      = .returned (some {za}, some (.Elements {zb}), none) :=
  handleReconRequestPoly_solved (peerWith nodeABC fixedSolver) [false] 7 [] nodeABC {za} {zb}
    rfl rfl

/-- Whenever a handler returns a `nil` error it returns a set and a message. -/
theorem handler_returns_values (p : Peer) (m : ReconMsg) (elements : Option ZSet)
    (message : Option ReconMsg)
    (h : handle p m = some (.returned (elements, message, none))) :
    elements.isSome = true ∧ message.isSome = true := by
  cases m with
  | ReconRqstPoly pfx size samples =>
    simp only [handle, Option.some.injEq] at h
    unfold handleReconRequestPoly at h
    rcases p.ptree.Node pfx with ⟨nodeOpt, err⟩
    simp only at h
    repeat' split at h
    all_goals simp at h
    all_goals (obtain ⟨rfl, rfl⟩ := h; simp)
  | ReconRqstFull pfx els =>
    simp only [handle, Option.some.injEq] at h
    unfold handleReconRequestFull at h
    rcases p.ptree.Node pfx with ⟨nodeOpt, err⟩
    simp only at h
    repeat' split at h
    all_goals simp at h
    all_goals first
      | (obtain ⟨rfl, rfl⟩ := h; simp)
      | simp_all
  | Elements z => simp [handle] at h
  | FullElements z => simp [handle] at h
  | SyncFail => simp [handle] at h
  | Done => simp [handle] at h
  | Flush => simp [handle] at h
  | Error t => simp [handle] at h

/-! ## The session driver: auxiliary facts -/

theorem WriteMsg_none (w w1 : Writer) (m : ReconMsg) (h : WriteMsg w m = (w1, none)) :
    w1.buffered = w.buffered ++ [m] ∧ w1.sent = w.sent ∧ w1.writeFail = w.writeFail := by
  unfold WriteMsg at h
  split at h
  · simp at h
  · simp only [Prod.mk.injEq, and_true] at h
    subst h
    simp

theorem writePending_none (q : List ReconMsg) :
    ∀ w w1 : Writer, writePending q w = (w1, none) →
      w1.buffered = w.buffered ++ q ∧ w1.sent = w.sent ∧ w1.writeFail = w.writeFail := by
  induction q with
  | nil =>
    intro w w1 h
    simp only [writePending, Prod.mk.injEq, and_true] at h
    subst h
    simp
  | cons m rest ih =>
    intro w w1 h
    unfold writePending at h
    rcases hw : WriteMsg w m with ⟨w2, e⟩
    rw [hw] at h
    cases e with
    | some err => simp at h
    | none =>
      simp only at h
      obtain ⟨h1, h2, h3⟩ := WriteMsg_none w w2 m hw
      obtain ⟨k1, k2, k3⟩ := ih w2 w1 h
      refine ⟨?_, ?_, ?_⟩
      · rw [k1, h1]; simp
      · rw [k2, h2]
      · rw [k3, h3]

theorem writePending_succeeds (q : List ReconMsg) :
    ∀ w : Writer, (∀ k, w.writeFail k = none) → ∃ w1, writePending q w = (w1, none) := by
  induction q with
  | nil => intro w _; exact ⟨w, rfl⟩
  | cons m rest ih =>
    intro w hw
    unfold writePending
    have h1 : WriteMsg w m
        = ({ w with calls := w.calls + 1, buffered := w.buffered ++ [m] }, none) := by
      unfold WriteMsg
      rw [hw w.calls]
    rw [h1]
    exact ih _ hw

theorem Flush_none (w w1 : Writer) (h : w.Flush = (w1, none)) :
    w1.buffered = [] ∧ w1.sent = w.sent ++ w.buffered ∧ w1.writeFail = w.writeFail := by
  unfold Writer.Flush at h
  split at h
  · simp at h
  · simp only [Prod.mk.injEq, and_true] at h
    subst h
    simp

theorem accumulate_next (s s1 : Session) (r : Run HandlerResult)
    (h : accumulate s r = .next s1) :
    ∃ elements message, r = .returned (some elements, some message, none) ∧
      s1 = { s with
        localNeeds := s.localNeeds ∪ elements
        count := s.count + (elements.card : Int)
        pendingMessages := s.pendingMessages ++ [message] } := by
  unfold accumulate at h
  split at h
  · simp at h
  · simp at h
  · rename_i elements message
    simp only [Step.next.injEq] at h
    exact ⟨elements, message, rfl, h.symm⟩
  · simp at h

theorem outcome_flush (p : Peer) : outcome p .Flush = none := rfl

theorem responses_flush (p : Peer) : responses p .Flush = [] := rfl

theorem locallyNeeded_flush (p : Peer) : locallyNeeded p .Flush = ∅ := rfl

/-- What an iteration that lets the loop go on has done to the variables. -/
theorem iteration_next (p : Peer) (s s1 : Session) (m : ReconMsg)
    (h : iteration p s (.ok m) = .next s1) (hb : s.w.buffered = []) :
    s1.localNeeds = s.localNeeds ∪ locallyNeeded p m
      ∧ s1.count = s.count + (locallyNeeded p m).Len
      ∧ s1.w.writeFail = s.w.writeFail
      ∧ s1.w.buffered = []
      ∧ (s1.w.sent, s1.pendingMessages) = flushTrack p [m] (s.w.sent, s.pendingMessages)
      ∧ (m = .Flush ∨ (responses p m).length = 1) := by
  cases m with
  | ReconRqstPoly pfx size samples =>
    obtain ⟨elements, message, hr, rfl⟩ := accumulate_next s s1 _ h
    have ho : outcome p (.ReconRqstPoly pfx size samples) = some (elements, message) := by
      simp [outcome, handle, hr]
    simp [locallyNeeded, responses, ho, flushTrack, hb, ZSet.Len]
  | ReconRqstFull pfx els =>
    obtain ⟨elements, message, hr, rfl⟩ := accumulate_next s s1 _ h
    have ho : outcome p (.ReconRqstFull pfx els) = some (elements, message) := by
      simp [outcome, handle, hr]
    simp [locallyNeeded, responses, ho, flushTrack, hb, ZSet.Len]
  | Flush =>
    simp only [iteration] at h
    rcases hw : writePending s.pendingMessages s.w with ⟨w1, e1⟩
    rw [hw] at h
    cases e1 with
    | some err => simp at h
    | none =>
      simp only at h
      rcases hf : w1.Flush with ⟨w2, e2⟩
      rw [hf] at h
      cases e2 with
      | some err => simp at h
      | none =>
        simp only [Step.next.injEq] at h
        subst h
        obtain ⟨a1, a2, a3⟩ := writePending_none _ _ _ hw
        obtain ⟨b1, b2, b3⟩ := Flush_none _ _ hf
        simp [locallyNeeded_flush, flushTrack, ZSet.Len, b1, b2, b3, a1, a2, a3, hb]
  | Elements z => simp [iteration] at h
  | FullElements z => simp [iteration] at h
  | SyncFail => simp [iteration] at h
  | Done => simp [iteration] at h
  | Error t => simp [iteration] at h

theorem flushTrack_cons (p : Peer) (m : ReconMsg) (ms : List ReconMsg)
    (st : List ReconMsg × List ReconMsg) :
    flushTrack p (m :: ms) st = flushTrack p ms (flushTrack p [m] st) := by
  rcases st with ⟨sent, pending⟩
  by_cases hm : m = .Flush
  · simp [flushTrack, hm]
  · simp [flushTrack, hm]

theorem flushTrack_append (p : Peer) (a b : List ReconMsg) :
    ∀ st, flushTrack p (a ++ b) st = flushTrack p b (flushTrack p a st) := by
  induction a with
  | nil => intro st; rfl
  | cons m ms ih =>
    intro st
    rw [List.cons_append, flushTrack_cons, ih, ← flushTrack_cons]

theorem flushTrack_noFlush (p : Peer) (b : List ReconMsg) (hb : ReconMsg.Flush ∉ b) :
    ∀ sent pending, flushTrack p b (sent, pending)
      = (sent, pending ++ b.flatMap (responses p)) := by
  induction b with
  | nil => intro sent pending; simp [flushTrack]
  | cons m ms ih =>
    intro sent pending
    have hm : m ≠ .Flush := fun h => hb (by simp [h])
    have hms : ReconMsg.Flush ∉ ms := fun h => hb (by simp [h])
    simp [flushTrack, hm, ih hms]

theorem flushTrack_total (p : Peer) (a : List ReconMsg) :
    ∀ sent pending, (flushTrack p a (sent, pending)).1 ++ (flushTrack p a (sent, pending)).2
      = sent ++ pending ++ a.flatMap (responses p) := by
  induction a with
  | nil => intro sent pending; simp [flushTrack]
  | cons m ms ih =>
    intro sent pending
    by_cases hm : m = .Flush
    · subst hm
      simp [flushTrack, ih, responses_flush]
    · simp [flushTrack, hm, ih]

/-- After a sequence that is empty or ends with `Flush`, every response is on
the connection and the queue is empty. -/
theorem flushTrack_flushed (p : Peer) (pre : List ReconMsg)
    (hpre : pre = [] ∨ ∃ q, pre = q ++ [.Flush]) :
    flushTrack p pre ([], []) = (pre.flatMap (responses p), []) := by
  rcases hpre with rfl | ⟨q, rfl⟩
  · rfl
  · have ht := flushTrack_total p q [] []
    rw [flushTrack_append]
    rcases hq : flushTrack p q ([], []) with ⟨sent, pending⟩
    rw [hq] at ht
    simp only [List.nil_append] at ht
    simp [flushTrack, ht, responses_flush]

/-- What a run of the loop over processed messages has done to the variables. -/
theorem advance_inv (p : Peer) (limit : Int) (msgs : List ReconMsg) :
    ∀ s s1 : Session, advance p limit msgs s = some s1 → s.w.buffered = [] →
      s1.localNeeds = s.localNeeds ∪ needUnion p msgs
        ∧ s1.count = s.count + counter p msgs
        ∧ s1.w.writeFail = s.w.writeFail
        ∧ s1.w.buffered = []
        ∧ (s1.w.sent, s1.pendingMessages) = flushTrack p msgs (s.w.sent, s.pendingMessages)
        ∧ ∀ m ∈ msgs, m = .Flush ∨ (responses p m).length = 1 := by
  induction msgs with
  | nil =>
    intro s s1 h hb
    simp only [advance, Option.some.injEq] at h
    subst h
    simp [needUnion, counter, flushTrack, hb]
  | cons m ms ih =>
    intro s s1 h hb
    unfold advance at h
    split at h
    · rcases hi : iteration p s (.ok m) with s2 | ⟨s2, r⟩
      · rw [hi] at h
        simp only at h
        obtain ⟨a1, a2, a3, a4, a5, a6⟩ := iteration_next p s s2 m hi hb
        obtain ⟨b1, b2, b3, b4, b5, b6⟩ := ih s2 s1 h a4
        refine ⟨?_, ?_, ?_, b4, ?_, ?_⟩
        · rw [b1, a1, needUnion, Finset.union_assoc]
        · rw [b2, a2, counter]; ring
        · rw [b3, a3]
        · rw [b5, a5, ← flushTrack_cons]
        · intro x hx
          rcases List.mem_cons.1 hx with rfl | hx
          · exact a6
          · exact b6 x hx
      · rw [hi] at h
        simp at h
    · simp at h

theorem advance_append (p : Peer) (limit : Int) (a b : List ReconMsg) :
    ∀ s, advance p limit (a ++ b) s = (advance p limit a s).bind (advance p limit b) := by
  induction a with
  | nil => intro s; rfl
  | cons m ms ih =>
    intro s
    simp only [List.cons_append, advance]
    split
    · rcases hi : iteration p s (.ok m) with s2 | ⟨s2, r⟩
      · exact ih s2
      · simp
    · simp

/-- The loop of `reconcilate` after processed messages continues from the
variables they left. -/
theorem reconcilateLoop_advance (p : Peer) (limit : Int) (msgs : List ReconMsg)
    (rest : List (Except Error ReconMsg)) :
    ∀ s s1 : Session, advance p limit msgs s = some s1 →
      reconcilateLoop p limit (msgs.map .ok ++ rest) s = reconcilateLoop p limit rest s1 := by
  induction msgs with
  | nil =>
    intro s s1 h
    simp only [advance, Option.some.injEq] at h
    subst h
    rfl
  | cons m ms ih =>
    intro s s1 h
    unfold advance at h
    simp only [List.map_cons, List.cons_append, reconcilateLoop]
    split at h
    · rename_i hlt
      rw [if_pos hlt]
      rcases hi : iteration p s (.ok m) with s2 | ⟨s2, r⟩
      · rw [hi] at h
        simp only at h
        exact ih s2 s1 h
      · rw [hi] at h
        simp at h
    · simp at h

theorem counter_nonneg (p : Peer) (msgs : List ReconMsg) : 0 ≤ counter p msgs := by
  induction msgs with
  | nil => simp [counter]
  | cons m ms ih =>
    simp only [counter, ZSet.Len]
    have : (0 : Int) ≤ ((locallyNeeded p m).card : Int) := Int.natCast_nonneg _
    omega

theorem card_needUnion_le (p : Peer) (msgs : List ReconMsg) :
    ((needUnion p msgs).card : Int) ≤ counter p msgs := by
  induction msgs with
  | nil => simp [needUnion, counter]
  | cons m ms ih =>
    simp only [needUnion, counter, ZSet.Len]
    have h := Finset.card_union_le (locallyNeeded p m) (needUnion p ms)
    have h2 : (((locallyNeeded p m ∪ needUnion p ms).card : Nat) : Int)
        ≤ ((locallyNeeded p m).card : Int) + ((needUnion p ms).card : Int) := by
      exact_mod_cast h
    omega

theorem outcome_some (p : Peer) (m : ReconMsg) (elements : ZSet) (message : ReconMsg)
    (h : outcome p m = some (elements, message)) :
    handle p m = some (.returned (some elements, some message, none)) := by
  unfold outcome at h
  split at h
  · rename_i e1 m1 heq
    simp only [Option.some.injEq, Prod.mk.injEq] at h
    rw [heq, h.1, h.2]
  · simp at h

/-- A request handled without error, or a `Flush` whose writes succeed, lets
the loop go on. -/
theorem iteration_succeeds (p : Peer) (s : Session) (m : ReconMsg)
    (hm : m = .Flush ∨ (outcome p m).isSome = true) (hw : ∀ k, s.w.writeFail k = none) :
    ∃ s1, iteration p s (.ok m) = .next s1 := by
  rcases hm with rfl | hm
  · obtain ⟨w1, h1⟩ := writePending_succeeds s.pendingMessages s.w hw
    obtain ⟨_, _, a3⟩ := writePending_none _ _ _ h1
    have h2 : w1.Flush
        = ({ w1 with calls := w1.calls + 1, buffered := [], sent := w1.sent ++ w1.buffered },
            none) := by
      unfold Writer.Flush
      rw [a3, hw w1.calls]
    simp only [iteration, h1, h2]
    exact ⟨_, rfl⟩
  · obtain ⟨⟨elements, message⟩, ho⟩ := Option.isSome_iff_exists.1 hm
    have hh := outcome_some p m elements message ho
    cases m with
    | ReconRqstPoly pfx size samples =>
      simp only [handle, Option.some.injEq] at hh
      simp only [iteration, hh, accumulate]
      exact ⟨_, rfl⟩
    | ReconRqstFull pfx els =>
      simp only [handle, Option.some.injEq] at hh
      simp only [iteration, hh, accumulate]
      exact ⟨_, rfl⟩
    | Elements z => simp [handle] at hh
    | FullElements z => simp [handle] at hh
    | SyncFail => simp [handle] at hh
    | Done => simp [handle] at hh
    | Flush => simp [handle] at hh
    | Error t => simp [handle] at hh

/-- Requests handled without error and flushes whose writes succeed are all
processed as long as the counter is below the limit before each of them. -/
theorem advance_succeeds (p : Peer) (limit : Int) (msgs : List ReconMsg) :
    ∀ s : Session, (∀ m ∈ msgs, m = .Flush ∨ (outcome p m).isSome = true) →
      (∀ k, s.w.writeFail k = none) → s.w.buffered = [] →
      (∀ k, k < msgs.length → s.count + counter p (msgs.take k) < limit) →
      ∃ s1, advance p limit msgs s = some s1 := by
  induction msgs with
  | nil => intro s _ _ _ _; exact ⟨s, rfl⟩
  | cons m ms ih =>
    intro s hm hw hb hc
    obtain ⟨s2, hi⟩ := iteration_succeeds p s m (hm m (by simp)) hw
    obtain ⟨a1, a2, a3, a4, _, _⟩ := iteration_next p s s2 m hi hb
    have h0 : s.count < limit := by
      have := hc 0 (by simp)
      simpa [counter] using this
    have hc2 : ∀ k, k < ms.length → s2.count + counter p (ms.take k) < limit := by
      intro k hk
      have := hc (k + 1) (by simpa using hk)
      simp only [List.take_succ_cons, counter] at this
      rw [a2]
      omega
    obtain ⟨s1, h1⟩ := ih s2 (fun x hx => hm x (by simp [hx])) (by rw [a3]; exact hw) a4 hc2
    refine ⟨s1, ?_⟩
    unfold advance
    rw [if_pos h0, hi]
    exact h1

/-! ## The session driver: results -/

/-- C5: for a poly request whose prefix the tree reports as not found,
`handleReconRequestPoly` returns `(nil, nil, ErrReconRqstPolyNotFound)` whatever
the solver is (it is not invoked), and `reconcilate`, on reading that request
after any processed messages, returns `(nil, false, ErrReconRqstPolyNotFound)`. -/
theorem handleReconRequestPoly_notFound (p : Peer) (pfx : Bitstring) (size : Int)
    (samples : List Zp) (hnf : (p.ptree.Node pfx).2 = some .ErrNodeNotFound) :
    (∀ sv : Solver, handleReconRequestPoly { p with conflux := sv } pfx size samples
        = .returned (none, none, some .ErrReconRqstPolyNotFound))
      ∧ ∀ (conn : Conn) (limit : Int) (msgs : List ReconMsg)
          (rest : List (Except Error ReconMsg)) (s : Session),
          conn.reads = msgs.map .ok ++ .ok (.ReconRqstPoly pfx size samples) :: rest →
          advance p limit msgs (Session.start conn) = some s → s.count < limit →
          reconcilate p conn limit
            = ⟨.returned (none, false, some .ErrReconRqstPolyNotFound), s, rest⟩ := by
  have hh : ∀ sv : Solver, handleReconRequestPoly { p with conflux := sv } pfx size samples
      = .returned (none, none, some .ErrReconRqstPolyNotFound) := by
    intro sv
    unfold handleReconRequestPoly
    rcases hlook : p.ptree.Node pfx with ⟨nodeOpt, err⟩
    rw [hlook] at hnf
    simp only at hnf
    subst hnf
    simp [hlook]
  refine ⟨hh, ?_⟩
  intro conn limit msgs rest s hreads hadv hlim
  have h0 := hh p.conflux
  simp only at h0
  unfold reconcilate
  rw [hreads, reconcilateLoop_advance p limit msgs _ _ s hadv]
  simp [reconcilateLoop, hlim, iteration, h0, accumulate]

/-- The example session reads a poly request for the prefix `[1]`, which has
no node, after four processed messages. -/
theorem handleReconRequestPoly_notFound_witness :
    handleReconRequestPoly { peerABC with conflux := fixedSolver } [true] 7 []
        = .returned (none, none, some .ErrReconRqstPolyNotFound)
      ∧ reconcilate peerABC
          (connOf (batchMsgsPre ++ batchMsgs ++ [ReconMsg.ReconRqstPoly [true] 7 []])) 10
        = ⟨.returned (none, false, some .ErrReconRqstPolyNotFound), sessionAfterBatch, []⟩ :=
  ⟨(handleReconRequestPoly_notFound peerABC [true] 7 [] rfl).1 fixedSolver,
   (handleReconRequestPoly_notFound peerABC [true] 7 [] rfl).2
      (connOf (batchMsgsPre ++ batchMsgs ++ [ReconMsg.ReconRqstPoly [true] 7 []])) 10
      (batchMsgsPre ++ batchMsgs) [] sessionAfterBatch rfl rfl (by decide)⟩

/-- C6: for a limit `> 0` and inbound messages `msgs` followed by `Done`, where
every message of `msgs` is a `Flush` or a request handled without error, every
write succeeds and the counter stays below the limit, `reconcilate` returns
no error, completion flag `true` and the union of the locally-needed sets
returned for the requests of `msgs`. -/
theorem reconcilate_done (p : Peer) (conn : Conn) (limit : Int) (msgs : List ReconMsg)
    (rest : List (Except Error ReconMsg))
    (hlimit : 0 < limit)
    (hreads : conn.reads = msgs.map .ok ++ .ok .Done :: rest)
    (hmsgs : ∀ m ∈ msgs, m = .Flush ∨ (outcome p m).isSome = true)
    (hwrite : ∀ k, conn.writeFail k = none)
    (hcount : ∀ k, 1 ≤ k → k ≤ msgs.length → counter p (msgs.take k) < limit) :
    (reconcilate p conn limit).result = .returned (some (needUnion p msgs), true, none) := by
  have hc : ∀ k, k ≤ msgs.length → counter p (msgs.take k) < limit := by
    intro k hk
    rcases Nat.eq_zero_or_pos k with rfl | hpos
    · simpa [counter] using hlimit
    · exact hcount k hpos hk
  obtain ⟨s, hs⟩ := advance_succeeds p limit msgs (Session.start conn) hmsgs hwrite rfl
    (fun k hk => by simpa [Session.start] using hc k (le_of_lt hk))
  obtain ⟨a1, a2, _, _, _, _⟩ := advance_inv p limit msgs _ s hs rfl
  have hlt : s.count < limit := by
    rw [a2]
    simpa [Session.start] using hc msgs.length le_rfl
  unfold reconcilate
  rw [hreads, reconcilateLoop_advance p limit msgs _ _ s hs]
  simp [reconcilateLoop, hlt, iteration, a1, Session.start, NewZSet]

/-- The example session followed by `Done`, with limit 10: the need-set is `{d}`. -/
theorem reconcilate_done_witness :
    (reconcilate peerABC (connOf (batchMsgsPre ++ batchMsgs ++ [ReconMsg.Done])) 10).result
        = .returned (some (needUnion peerABC (batchMsgsPre ++ batchMsgs)), true, none)
      ∧ needUnion peerABC (batchMsgsPre ++ batchMsgs) = {zd} :=
  ⟨reconcilate_done peerABC (connOf (batchMsgsPre ++ batchMsgs ++ [ReconMsg.Done])) 10
      (batchMsgsPre ++ batchMsgs) [] (by decide) rfl (by decide) (fun _ => rfl) (by decide),
   by decide⟩

/-- C7, as the claim states it, fails: with limit 1, a full request for a
prefix without node whose remote set has three elements is processed (the
counter is 0 before it) and brings the counter to 3; the session then ends on
the limit with a need-set of three elements. -/
theorem reconcilate_limit_counterexample :
    (advance (peerWith nodeABC lowMBarSolver) 1 [.ReconRqstFull [true] {zb, zc, zd}]
        (Session.start (connOf [.ReconRqstFull [true] {zb, zc, zd}]))).map
        (fun s => (s.localNeeds, s.count)) = some ({zb, zc, zd}, 3)
      ∧ (reconcilate (peerWith nodeABC lowMBarSolver)
          (connOf [.ReconRqstFull [true] {zb, zc, zd}]) 1).result
        = .returned (some {zb, zc, zd}, false, none)
      ∧ ¬ ((({zb, zc, zd} : ZSet).card : Int) ≤ 1) := by
  decide

/-- C7 (amended): when `reconcilate` has processed the messages `msgs` and the
counter is then no longer below the limit, it returns no error, completion
flag `false` and the need-set accumulated from `msgs`; the cardinality of that
set is at most the counter, the set is empty when nothing was processed, and
otherwise its cardinality is below the limit plus the number of locally-needed
elements returned for the last message processed. -/
theorem reconcilate_limit_exhausted (p : Peer) (conn : Conn) (limit : Int)
    (msgs : List ReconMsg) (rest : List (Except Error ReconMsg)) (s : Session)
    (hreads : conn.reads = msgs.map .ok ++ rest)
    (hadv : advance p limit msgs (Session.start conn) = some s)
    (hlim : ¬ s.count < limit) :
    reconcilate p conn limit = ⟨.returned (some s.localNeeds, false, none), s, rest⟩
      ∧ s.localNeeds = needUnion p msgs
      ∧ (s.localNeeds.card : Int) ≤ s.count
      ∧ (msgs = [] → s.localNeeds = ∅)
      ∧ ∀ init last, msgs = init ++ [last] →
          (s.localNeeds.card : Int) < limit + ((locallyNeeded p last).card : Int) := by
  obtain ⟨a1, a2, _, _, _, _⟩ := advance_inv p limit msgs _ s hadv rfl
  have hneeds : s.localNeeds = needUnion p msgs := by
    rw [a1]
    simp [Session.start, NewZSet]
  have hcard : (s.localNeeds.card : Int) ≤ s.count := by
    rw [hneeds, a2]
    have := card_needUnion_le p msgs
    simpa [Session.start] using this
  refine ⟨?_, hneeds, hcard, ?_, ?_⟩
  · unfold reconcilate
    rw [hreads, reconcilateLoop_advance p limit msgs _ _ s hadv]
    cases rest with
    | nil => simp [reconcilateLoop, hlim]
    | cons r rs => simp [reconcilateLoop, hlim]
  · rintro rfl
    rw [hneeds]
    rfl
  · rintro init last rfl
    rw [advance_append] at hadv
    rcases h0 : advance p limit init (Session.start conn) with _ | s0
    · rw [h0] at hadv
      simp at hadv
    · rw [h0] at hadv
      simp only [Option.some_bind] at hadv
      obtain ⟨_, _, _, b4, _, _⟩ := advance_inv p limit init _ s0 h0 rfl
      obtain ⟨_, c2, _, _, _, _⟩ := advance_inv p limit [last] s0 s hadv b4
      have hlt : s0.count < limit := by
        unfold advance at hadv
        by_contra hge
        rw [if_neg hge] at hadv
        simp at hadv
      simp only [counter, ZSet.Len] at c2
      omega

/-- With limit 1, one full request contributing three elements ends the
session on the limit with three elements, fewer than `1 + 3`. -/
theorem reconcilate_limit_exhausted_witness :
    reconcilate peerABC (connOf [.ReconRqstFull [true] {zb, zc, zd}]) 1
        = ⟨.returned (some sessionAfterBCD.localNeeds, false, none), sessionAfterBCD, []⟩
      ∧ (sessionAfterBCD.localNeeds.card : Int)
        < 1 + ((locallyNeeded peerABC (.ReconRqstFull [true] {zb, zc, zd})).card : Int) :=
  ⟨(reconcilate_limit_exhausted peerABC (connOf [.ReconRqstFull [true] {zb, zc, zd}]) 1
      [.ReconRqstFull [true] {zb, zc, zd}] [] sessionAfterBCD rfl rfl (by decide)).1,
   (reconcilate_limit_exhausted peerABC (connOf [.ReconRqstFull [true] {zb, zc, zd}]) 1
      [.ReconRqstFull [true] {zb, zc, zd}] [] sessionAfterBCD rfl rfl (by decide)).2.2.2.2
      [] (.ReconRqstFull [true] {zb, zc, zd}) rfl⟩

/-- C8: let `pre` be empty or end with `Flush`, and let `batch` hold no `Flush`.
When the loop has processed `pre ++ batch`, a `Flush` is read next and every
write succeeds, the queue holds one response per request of `batch`, in the
order of the requests; the `Flush` step delivers exactly these messages to the
connection, in that order, and leaves the queue and the writer's buffer
empty. -/
theorem flush_writes_pending (p : Peer) (conn : Conn) (limit : Int)
    (pre batch : List ReconMsg) (s1 : Session)
    (hpre : pre = [] ∨ ∃ q, pre = q ++ [.Flush])
    (hbatch : ReconMsg.Flush ∉ batch)
    (hadv : advance p limit (pre ++ batch) (Session.start conn) = some s1)
    (hlim : s1.count < limit)
    (hwrite : ∀ k, conn.writeFail k = none) :
    ∃ s2, iteration p s1 (.ok .Flush) = .next s2
      ∧ advance p limit (pre ++ batch ++ [.Flush]) (Session.start conn) = some s2
      ∧ s1.pendingMessages = batch.flatMap (responses p)
      ∧ (∀ m ∈ batch, (responses p m).length = 1)
      ∧ s2.w.sent = s1.w.sent ++ batch.flatMap (responses p)
      ∧ s2.pendingMessages = []
      ∧ s2.w.buffered = [] := by
  obtain ⟨_, _, a3, a4, a5, a6⟩ := advance_inv p limit (pre ++ batch) _ s1 hadv rfl
  have htrack : flushTrack p (pre ++ batch) ([], [])
      = (pre.flatMap (responses p), batch.flatMap (responses p)) := by
    rw [flushTrack_append, flushTrack_flushed p pre hpre, flushTrack_noFlush p batch hbatch]
    simp
  have hstate : s1.w.sent = pre.flatMap (responses p)
      ∧ s1.pendingMessages = batch.flatMap (responses p) := by
    have h := a5
    simp only [Session.start] at h
    rw [htrack] at h
    exact ⟨congrArg Prod.fst h, congrArg Prod.snd h⟩
  obtain ⟨s2, hi⟩ := iteration_succeeds p s1 .Flush (Or.inl rfl)
    (fun k => by rw [a3]; exact hwrite k)
  obtain ⟨_, _, _, b4, b5, _⟩ := iteration_next p s1 s2 .Flush hi a4
  have hstep : s2.w.sent = s1.w.sent ++ s1.pendingMessages ∧ s2.pendingMessages = [] := by
    have h := b5
    simp only [flushTrack, if_true] at h
    exact ⟨congrArg Prod.fst h, congrArg Prod.snd h⟩
  refine ⟨s2, hi, ?_, hstate.2, ?_, ?_, hstep.2, b4⟩
  · rw [advance_append, hadv]
    simp only [Option.some_bind, advance, if_pos hlim, hi]
  · intro m hm
    rcases a6 m (List.mem_append_right pre hm) with rfl | h
    · exact absurd hm hbatch
    · exact h
  · rw [hstep.1, hstate.2]

/-- The second `Flush` of the example session delivers the two responses of
the batch that precedes it. -/
theorem flush_writes_pending_witness :
    ∃ s2, iteration peerABC sessionAfterBatch (.ok .Flush) = .next s2
      ∧ advance peerABC 10 (batchMsgsPre ++ batchMsgs ++ [.Flush])
          (Session.start (connOf (batchMsgsPre ++ batchMsgs ++ [ReconMsg.Flush]))) = some s2
      ∧ sessionAfterBatch.pendingMessages = batchMsgs.flatMap (responses peerABC)
      ∧ (∀ m ∈ batchMsgs, (responses peerABC m).length = 1)
      ∧ s2.w.sent = sessionAfterBatch.w.sent ++ batchMsgs.flatMap (responses peerABC)
      ∧ s2.pendingMessages = []
      ∧ s2.w.buffered = [] :=
  flush_writes_pending peerABC (connOf (batchMsgsPre ++ batchMsgs ++ [ReconMsg.Flush])) 10
    batchMsgsPre batchMsgs sessionAfterBatch (Or.inr ⟨[.ReconRqstFull [true] {zd}], rfl⟩)
    (by decide) rfl (by decide) (fun _ => rfl)

/-- C9: let `pre` be empty or end with `Flush`, and let `post` hold no `Flush`.
When the loop has processed `pre ++ post` and then reads `Done`, the `Done`
step leaves the writer untouched and `reconcilate` returns the need-set with
completion flag `true`; the messages delivered to the connection over the
session are exactly the responses to the requests of `pre`, nothing is left
in the writer's buffer, and the responses to the requests of `post` are still
in the queue, never written. -/
theorem done_discards_pending (p : Peer) (conn : Conn) (limit : Int)
    (pre post : List ReconMsg) (rest : List (Except Error ReconMsg)) (s : Session)
    (hreads : conn.reads = (pre ++ post).map .ok ++ .ok .Done :: rest)
    (hpre : pre = [] ∨ ∃ q, pre = q ++ [.Flush])
    (hpost : ReconMsg.Flush ∉ post)
    (hadv : advance p limit (pre ++ post) (Session.start conn) = some s)
    (hlim : s.count < limit) :
    iteration p s (.ok .Done) = .exit s (.returned (some s.localNeeds, true, none))
      ∧ reconcilate p conn limit = ⟨.returned (some s.localNeeds, true, none), s, rest⟩
      ∧ s.w.sent = pre.flatMap (responses p)
      ∧ s.w.buffered = []
      ∧ s.pendingMessages = post.flatMap (responses p) := by
  obtain ⟨_, _, _, a4, a5, _⟩ := advance_inv p limit (pre ++ post) _ s hadv rfl
  have htrack : flushTrack p (pre ++ post) ([], [])
      = (pre.flatMap (responses p), post.flatMap (responses p)) := by
    rw [flushTrack_append, flushTrack_flushed p pre hpre, flushTrack_noFlush p post hpost]
    simp
  have h := a5
  simp only [Session.start] at h
  rw [htrack] at h
  refine ⟨rfl, ?_, congrArg Prod.fst h, a4, congrArg Prod.snd h⟩
  unfold reconcilate
  rw [hreads, reconcilateLoop_advance p limit (pre ++ post) _ _ s hadv]
  simp [reconcilateLoop, hlim, iteration]

/-- The example session followed by `Done`: only the response to the request
before the `Flush` was delivered; the two later responses stay in the queue. -/
theorem done_discards_pending_witness :
    iteration peerABC sessionAfterBatch (.ok .Done)
        = .exit sessionAfterBatch (.returned (some sessionAfterBatch.localNeeds, true, none))
      ∧ reconcilate peerABC (connOf (batchMsgsPre ++ batchMsgs ++ [ReconMsg.Done])) 10
        = ⟨.returned (some sessionAfterBatch.localNeeds, true, none), sessionAfterBatch, []⟩
      ∧ sessionAfterBatch.w.sent = batchMsgsPre.flatMap (responses peerABC)
      ∧ sessionAfterBatch.w.buffered = []
      ∧ sessionAfterBatch.pendingMessages = batchMsgs.flatMap (responses peerABC) :=
  done_discards_pending peerABC (connOf (batchMsgsPre ++ batchMsgs ++ [ReconMsg.Done])) 10
    batchMsgsPre batchMsgs [] sessionAfterBatch rfl
    (Or.inr ⟨[.ReconRqstFull [true] {zd}], rfl⟩) (by decide) rfl (by decide)

/-- C10, as the claim states it, fails: with a solver that fails with an error
other than `ErrLowMBar`, `handleReconRequestPoly` returns a `nil` error
together with an empty set and `SyncFail`, and the session goes on: the
request followed by `Done` ends with completion flag `true` and no error. -/
theorem handleReconRequestPoly_solverError_counterexample :
    solvex (peerWith nodeABC brokenSolver) [] nodeABC.SValues 7 nodeABC.Size
        (peerWith nodeABC brokenSolver).ptree.Points = .returned (.error (.other 9))
      ∧ (Error.other 9).Cause ≠ .ErrLowMBar
      ∧ handleReconRequestPoly (peerWith nodeABC brokenSolver) [false] 7 []
        = .returned (some ∅, some .SyncFail, none)
      ∧ (reconcilate (peerWith nodeABC brokenSolver)
          (connOf [.ReconRqstPoly [false] 7 [], .Done]) 5).result
        = .returned (some ∅, true, none) :=
  ⟨rfl, by decide, by decide, by decide⟩

/-- C10 (amended): when the node exists and the solver fails with an error
other than insufficient degree, `handleReconRequestPoly` returns no error, an
empty locally-needed set and the response `SyncFail`; in `reconcilate` the
step only appends `SyncFail` to the queue and the loop goes on. -/
theorem handleReconRequestPoly_solverError (p : Peer) (pfx : Bitstring) (size : Int)
    (samples : List Zp) (node : PrefixNode) (err : Error)
    (hnode : p.ptree.Node pfx = (some node, none))
    (hsolve : solvex p samples node.SValues size node.Size p.ptree.Points
      = .returned (.error err))
    (hother : err.Cause ≠ .ErrLowMBar) :
    handleReconRequestPoly p pfx size samples = .returned (some ∅, some .SyncFail, none)
      ∧ ∀ s : Session, iteration p s (.ok (.ReconRqstPoly pfx size samples))
          = .next { s with pendingMessages := s.pendingMessages ++ [.SyncFail] } := by
  have hh : handleReconRequestPoly p pfx size samples
      = .returned (some ∅, some .SyncFail, none) := by
    unfold handleReconRequestPoly
    rw [hnode]
    simp [hsolve, hother, NewZSet]
  refine ⟨hh, fun s => ?_⟩
  simp [iteration, hh, accumulate, ZSet.AddAll, ZSet.Len]

/-- A solver failing with another error: `SyncFail` is queued at session start. -/
theorem handleReconRequestPoly_solverError_witness :
    handleReconRequestPoly (peerWith nodeABC brokenSolver) [false] 7 []
        = .returned (some ∅, some .SyncFail, none)
      ∧ iteration (peerWith nodeABC brokenSolver) (Session.start (connOf []))
          (.ok (.ReconRqstPoly [false] 7 []))
        = .next { Session.start (connOf []) with
            pendingMessages := (Session.start (connOf [])).pendingMessages ++ [.SyncFail] } :=
  ⟨(handleReconRequestPoly_solverError (peerWith nodeABC brokenSolver) [false] 7 [] nodeABC
      (.other 9) rfl rfl (by decide)).1,
   (handleReconRequestPoly_solverError (peerWith nodeABC brokenSolver) [false] 7 [] nodeABC
      (.other 9) rfl rfl (by decide)).2 (Session.start (connOf []))⟩

/-! ## Fallback, unexpected messages and failures -/

/-- C11, as the claim states it, fails: on a leaf whose element enumeration
fails, an insufficient-degree outcome makes `handleReconRequestPoly` return the
enumeration error, and `reconcilate` ends the session with it. -/
theorem handleReconRequestPoly_lowMBar_error_counterexample :
    solvex (peerWith nodeUnreadable lowMBarSolver) [] nodeUnreadable.SValues 7
        nodeUnreadable.Size (peerWith nodeUnreadable lowMBarSolver).ptree.Points
        = .returned (.error .ErrLowMBar)
      ∧ handleReconRequestPoly (peerWith nodeUnreadable lowMBarSolver) [false] 7 []
        = .returned (none, none, some (.other 3))
      ∧ (reconcilate (peerWith nodeUnreadable lowMBarSolver)
          (connOf [.ReconRqstPoly [false] 7 [], .Done]) 5).result
        = .returned (none, false, some (.other 3)) :=
  ⟨rfl, by decide, by decide⟩

/-- C11 (amended): when the node exists, the solver reports insufficient degree
and either the enumeration of the node succeeds or the node is an inner node
of size at least `ThreshMult*MBar`, `handleReconRequestPoly` returns no error
and a `FullElements` or `SyncFail` response, and the step of `reconcilate`
queues that response and lets the loop go on. -/
theorem handleReconRequestPoly_lowMBar_recovers (p : Peer) (pfx : Bitstring) (size : Int)
    (samples : List Zp) (node : PrefixNode) (err : Error)
    (hnode : p.ptree.Node pfx = (some node, none))
    (hsolve : solvex p samples node.SValues size node.Size p.ptree.Points
      = .returned (.error err))
    (hlow : err.Cause = .ErrLowMBar)
    (henum : (∃ elements, node.Elements = .ok elements) ∨
      (node.IsLeaf = false ∧ mulInt p.settings.ThreshMult p.settings.MBar ≤ node.Size)) :
    ∃ message, handleReconRequestPoly p pfx size samples
          = .returned (some ∅, some message, none)
      ∧ (message = .SyncFail ∨
          ∃ elements, node.Elements = .ok elements ∧ message = .FullElements elements.toFinset)
      ∧ ∀ s : Session, iteration p s (.ok (.ReconRqstPoly pfx size samples))
          = .next { s with pendingMessages := s.pendingMessages ++ [message] } := by
  have key : ∃ message, handleReconRequestPoly p pfx size samples
        = .returned (some ∅, some message, none)
      ∧ (message = .SyncFail ∨
          ∃ elements, node.Elements = .ok elements
            ∧ message = .FullElements elements.toFinset) := by
    by_cases hcond : (node.IsLeaf ||
        decide (node.Size < mulInt p.settings.ThreshMult p.settings.MBar)) = true
    · rcases henum with ⟨elements, hel⟩ | ⟨hleaf, hbig⟩
      · refine ⟨.FullElements elements.toFinset, ?_, Or.inr ⟨elements, hel, rfl⟩⟩
        unfold handleReconRequestPoly
        rw [hnode]
        simp only [hsolve, hlow, hel]
        simp [hcond, NewZSet]
      · exfalso
        simp [hleaf, not_lt.2 hbig] at hcond
    · refine ⟨.SyncFail, ?_, Or.inl rfl⟩
      unfold handleReconRequestPoly
      rw [hnode]
      simp only [hsolve, hlow]
      simp [hcond, NewZSet]
  obtain ⟨message, hh, hm⟩ := key
  refine ⟨message, hh, hm, fun s => ?_⟩
  simp [iteration, hh, accumulate, ZSet.AddAll, ZSet.Len]

/-- A leaf with five elements: `FullElements` is queued at session start. -/
theorem handleReconRequestPoly_lowMBar_recovers_witness :
    ∃ message, handleReconRequestPoly (peerWith leaf5 lowMBarSolver) [false] 7 []
          = .returned (some ∅, some message, none)
      ∧ (message = .SyncFail ∨
          ∃ elements, leaf5.Elements = .ok elements ∧ message = .FullElements elements.toFinset)
      ∧ ∀ s : Session, iteration (peerWith leaf5 lowMBarSolver) s
            (.ok (.ReconRqstPoly [false] 7 []))
          = .next { s with pendingMessages := s.pendingMessages ++ [message] } :=
  handleReconRequestPoly_lowMBar_recovers (peerWith leaf5 lowMBarSolver) [false] 7 [] leaf5
    .ErrLowMBar rfl rfl (by decide) (Or.inl ⟨[za, zb, zc, zd, ze], rfl⟩)

/-- The text of the error built for an unexpected message. -/
theorem text_unexpectedMessage (base : Error → String) (typeName : String) :
    Error.text base (.unexpectedMessage typeName) = "got unexpected message " ++ typeName := by
  simp [Error.text]

/-- C12, as the claim states it, fails: on reading `Error{"boom"}` the error
`reconcilate` returns is `got unexpected message *recon.Error`, which does not
contain the remote text `boom`. -/
theorem reconcilate_inbound_error_counterexample :
    (reconcilate peerABC (connOf [.Error "boom"]) 5).result
        = .returned (none, false, some (.unexpectedMessage "*recon.Error"))
      ∧ ∀ base : Error → String,
          Error.text base (.unexpectedMessage "*recon.Error")
            = "got unexpected message *recon.Error"
          ∧ ¬ ("boom".data <:+: (Error.text base (.unexpectedMessage "*recon.Error")).data) :=
  ⟨by decide, fun base => by
    rw [text_unexpectedMessage]
    exact ⟨by decide, by decide⟩⟩

/-- C12 (amended): for every text, when `reconcilate` reads an inbound
`Error{text}` after any processed messages, it ends the session and returns
`(nil, false, err)` where `err` is the error of an unexpected message, whose
text `got unexpected message *recon.Error` is the same for every remote text. -/
theorem reconcilate_inbound_error (p : Peer) (conn : Conn) (limit : Int) (text : String)
    (msgs : List ReconMsg) (rest : List (Except Error ReconMsg)) (s : Session)
    (hreads : conn.reads = msgs.map .ok ++ .ok (.Error text) :: rest)
    (hadv : advance p limit msgs (Session.start conn) = some s)
    (hlim : s.count < limit) :
    reconcilate p conn limit
        = ⟨.returned (none, false, some (.unexpectedMessage "*recon.Error")), s, rest⟩
      ∧ ∀ base : Error → String, Error.text base (.unexpectedMessage "*recon.Error")
          = "got unexpected message *recon.Error" := by
  refine ⟨?_, fun base => by rw [text_unexpectedMessage]; decide⟩
  unfold reconcilate
  rw [hreads, reconcilateLoop_advance p limit msgs _ _ s hadv]
  simp [reconcilateLoop, hlim, iteration, ReconMsg.typeName]

/-- The example session reads `Error{"boom"}` after four processed messages. -/
theorem reconcilate_inbound_error_witness :
    reconcilate peerABC (connOf (batchMsgsPre ++ batchMsgs ++ [ReconMsg.Error "boom"])) 10
        = ⟨.returned (none, false, some (.unexpectedMessage "*recon.Error")),
            sessionAfterBatch, []⟩
      ∧ ∀ base : Error → String, Error.text base (.unexpectedMessage "*recon.Error")
          = "got unexpected message *recon.Error" :=
  reconcilate_inbound_error peerABC
    (connOf (batchMsgsPre ++ batchMsgs ++ [ReconMsg.Error "boom"])) 10 "boom"
    (batchMsgsPre ++ batchMsgs) [] sessionAfterBatch rfl rfl (by decide)

/-- C13: let `m` be a message that is none of `ReconRqstPoly`, `ReconRqstFull`,
`Done`, `Flush`. From every state of the loop variables with the counter below
the limit, reading `m` makes `reconcilate` return `(nil, false, err)` with the
non-nil error of an unexpected message, whatever was accumulated; this holds
at session start for every limit `> 0` and after any processed messages. -/
theorem reconcilate_unexpected_message (p : Peer) (limit : Int) (m : ReconMsg)
    (rest : List (Except Error ReconMsg))
    (hpoly : ∀ pfx size samples, m ≠ .ReconRqstPoly pfx size samples)
    (hfull : ∀ pfx elements, m ≠ .ReconRqstFull pfx elements)
    (hdone : m ≠ .Done) (hflush : m ≠ .Flush) :
    (∀ s : Session, s.count < limit →
        reconcilateLoop p limit (.ok m :: rest) s
          = ⟨.returned (none, false, some (.unexpectedMessage m.typeName)), s, rest⟩)
      ∧ (∀ conn : Conn, 0 < limit → conn.reads = .ok m :: rest →
          reconcilate p conn limit
            = ⟨.returned (none, false, some (.unexpectedMessage m.typeName)),
                Session.start conn, rest⟩)
      ∧ ∀ (conn : Conn) (msgs : List ReconMsg) (s : Session),
          conn.reads = msgs.map .ok ++ .ok m :: rest →
          advance p limit msgs (Session.start conn) = some s → s.count < limit →
          reconcilate p conn limit
            = ⟨.returned (none, false, some (.unexpectedMessage m.typeName)), s, rest⟩ := by
  have hloop : ∀ s : Session, s.count < limit →
      reconcilateLoop p limit (.ok m :: rest) s
        = ⟨.returned (none, false, some (.unexpectedMessage m.typeName)), s, rest⟩ := by
    intro s hlt
    cases m with
    | ReconRqstPoly pfx size samples => exact absurd rfl (hpoly pfx size samples)
    | ReconRqstFull pfx els => exact absurd rfl (hfull pfx els)
    | Done => exact absurd rfl hdone
    | Flush => exact absurd rfl hflush
    | Elements z => simp [reconcilateLoop, hlt, iteration]
    | FullElements z => simp [reconcilateLoop, hlt, iteration]
    | SyncFail => simp [reconcilateLoop, hlt, iteration]
    | Error t => simp [reconcilateLoop, hlt, iteration]
  refine ⟨hloop, ?_, ?_⟩
  · intro conn hlimit hreads
    unfold reconcilate
    rw [hreads]
    exact hloop _ (by simpa [Session.start] using hlimit)
  · intro conn msgs s hreads hadv hlt
    unfold reconcilate
    rw [hreads, reconcilateLoop_advance p limit msgs _ _ s hadv]
    exact hloop s hlt

/-- The example session reads `Elements{{a}}` after four processed messages:
the accumulated need-set `{d}` is not returned. -/
theorem reconcilate_unexpected_message_witness :
    reconcilate peerABC (connOf (batchMsgsPre ++ batchMsgs ++ [ReconMsg.Elements {za}])) 10
      = ⟨.returned (none, false, some (.unexpectedMessage (ReconMsg.Elements {za}).typeName)),
          sessionAfterBatch, []⟩ :=
  (reconcilate_unexpected_message peerABC 10 (.Elements {za}) []
    (fun _ _ _ h => by cases h) (fun _ _ h => by cases h) (fun h => by cases h)
    (fun h => by cases h)).2.2
    (connOf (batchMsgsPre ++ batchMsgs ++ [ReconMsg.Elements {za}]))
    (batchMsgsPre ++ batchMsgs) sessionAfterBatch rfl rfl (by decide)

/-- C14 fails on the code: when `reconcilate` ends with a handler error
(`ErrReconRqstPolyNotFound`), with an unexpected message or with a read error,
no call was made on the writer and nothing was delivered to the connection or
left in the buffer; in particular no `Error` message was written. -/
theorem reconcilate_failure_writes_nothing :
    ((reconcilate peerABC (connOf [.ReconRqstPoly [true] 7 []]) 5).result
          = .returned (none, false, some .ErrReconRqstPolyNotFound)
        ∧ (reconcilate peerABC (connOf [.ReconRqstPoly [true] 7 []]) 5).session.w.calls = 0
        ∧ (reconcilate peerABC (connOf [.ReconRqstPoly [true] 7 []]) 5).session.w.sent = []
        ∧ (reconcilate peerABC (connOf [.ReconRqstPoly [true] 7 []]) 5).session.w.buffered = [])
      ∧ ((reconcilate peerABC (connOf [.Elements {za}]) 5).result
          = .returned (none, false, some (.unexpectedMessage "*recon.Elements"))
        ∧ (reconcilate peerABC (connOf [.Elements {za}]) 5).session.w.calls = 0
        ∧ (reconcilate peerABC (connOf [.Elements {za}]) 5).session.w.sent = []
        ∧ (reconcilate peerABC (connOf [.Elements {za}]) 5).session.w.buffered = [])
      ∧ ((reconcilate peerABC ⟨[.error (.other 1)], fun _ => none⟩ 5).result
          = .returned (none, false, some (.wrapped (.other 1) "read messagw failed"))
        ∧ (reconcilate peerABC ⟨[.error (.other 1)], fun _ => none⟩ 5).session.w.calls = 0
        ∧ (reconcilate peerABC ⟨[.error (.other 1)], fun _ => none⟩ 5).session.w.sent = []
        ∧ (reconcilate peerABC ⟨[.error (.other 1)], fun _ => none⟩ 5).session.w.buffered
          = []) := by
  decide

/-- C18, as the claim states it, fails: the same full request read twice
returns `{d}` twice; the counter is 2 while the need-set `{d}` has one
element. -/
theorem counter_counterexample :
    (advance peerABC 10 [fullD, fullD] (Session.start (connOf [fullD, fullD]))).map
        (fun s => (s.localNeeds, s.count)) = some ({zd}, 2)
      ∧ ((({zd} : ZSet).card : Int) ≠ 2) := by
  decide

/-- C18 (amended): each request step advances the counter by the size of the
locally-needed set returned for that step, whether or not its elements are
already in the need-set. After the processed messages `msgs` the counter is
the sum of the sizes of the returned sets and at least the cardinality of the
need-set; a step whose returned set is disjoint from the need-set advances
both by the same number. -/
theorem counter_counts_returned (p : Peer) (conn : Conn) (limit : Int)
    (msgs : List ReconMsg) (s : Session)
    (hadv : advance p limit msgs (Session.start conn) = some s) :
    s.count = counter p msgs
      ∧ s.localNeeds = needUnion p msgs
      ∧ (s.localNeeds.card : Int) ≤ s.count
      ∧ ∀ (m : ReconMsg) (s1 : Session), iteration p s (.ok m) = .next s1 →
          s1.count = s.count + ((locallyNeeded p m).card : Int)
            ∧ s1.localNeeds = s.localNeeds ∪ locallyNeeded p m
            ∧ (Disjoint s.localNeeds (locallyNeeded p m) →
                (s1.localNeeds.card : Int)
                  = (s.localNeeds.card : Int) + ((locallyNeeded p m).card : Int)) := by
  obtain ⟨a1, a2, _, a4, _, _⟩ := advance_inv p limit msgs _ s hadv rfl
  have hneeds : s.localNeeds = needUnion p msgs := by
    rw [a1]
    simp [Session.start, NewZSet]
  have hcount : s.count = counter p msgs := by
    rw [a2]
    simp [Session.start]
  refine ⟨hcount, hneeds, ?_, ?_⟩
  · rw [hneeds, hcount]
    exact card_needUnion_le p msgs
  · intro m s1 hi
    obtain ⟨b1, b2, _, _, _, _⟩ := iteration_next p s s1 m hi a4
    refine ⟨by simpa [ZSet.Len] using b2, b1, fun hdis => ?_⟩
    rw [b1, Finset.card_union_of_disjoint hdis]
    push_cast
    rfl

/-- After one full request returning `{d}`, a second identical request brings
the counter from 1 to 2 and leaves the need-set `{d}`. -/
theorem counter_counts_returned_witness :
    (1 : Int) = counter peerABC [fullD]
      ∧ ({zd} : ZSet) = needUnion peerABC [fullD]
      ∧ ((({zd} : ZSet).card : Int) ≤ 1)
      ∧ ((2 : Int) = 1 + ((locallyNeeded peerABC fullD).card : Int)
        ∧ ({zd} : ZSet) = {zd} ∪ locallyNeeded peerABC fullD) :=
  have h := counter_counts_returned peerABC (connOf [fullD, fullD]) 10 [fullD]
    { localNeeds := {zd}, count := 1, pendingMessages := [.Elements ∅], w := writerAfter 0 [] }
    rfl
  ⟨h.1, h.2.1, h.2.2.1,
    (h.2.2.2 fullD
      { localNeeds := {zd}, count := 2, pendingMessages := [.Elements ∅, .Elements ∅],
        w := writerAfter 0 [] } rfl).1,
    (h.2.2.2 fullD
      { localNeeds := {zd}, count := 2, pendingMessages := [.Elements ∅, .Elements ∅],
        w := writerAfter 0 [] } rfl).2.1⟩

/-- C19: for every limit `≤ 0` and every connection, `reconcilate` returns an
empty need-set, completion flag `false` and no error; its variables are those
of the session start (no call on the writer, nothing delivered) and every
read result is left unread. -/
theorem reconcilate_nonpositive_limit (p : Peer) (conn : Conn) (limit : Int)
    (hlimit : limit ≤ 0) :
    reconcilate p conn limit = ⟨.returned (some ∅, false, none), Session.start conn, conn.reads⟩
      ∧ (Session.start conn).w.calls = 0
      ∧ (Session.start conn).w.sent = []
      ∧ (Session.start conn).w.buffered = [] := by
  refine ⟨?_, rfl, rfl, rfl⟩
  have hnot : ¬ (0 : Int) < limit := not_lt.2 hlimit
  unfold reconcilate
  cases conn.reads with
  | nil => simp [reconcilateLoop, hnot, Session.start, NewZSet]
  | cons r rs => simp [reconcilateLoop, hnot, Session.start, NewZSet]

/-- With limit 0 the example session is not read at all. -/
theorem reconcilate_nonpositive_limit_witness :
    reconcilate peerABC (connOf (batchMsgsPre ++ batchMsgs)) 0
        = ⟨.returned (some ∅, false, none), Session.start (connOf (batchMsgsPre ++ batchMsgs)),
            (connOf (batchMsgsPre ++ batchMsgs)).reads⟩
      ∧ (Session.start (connOf (batchMsgsPre ++ batchMsgs))).w.calls = 0
      ∧ (Session.start (connOf (batchMsgsPre ++ batchMsgs))).w.sent = []
      ∧ (Session.start (connOf (batchMsgsPre ++ batchMsgs))).w.buffered = [] :=
  reconcilate_nonpositive_limit peerABC (connOf (batchMsgsPre ++ batchMsgs)) 0 (by decide)

/-- C20 fails on the code: when the lookup fails with a storage error and
returns no node, `handleReconRequestPoly` goes on to `node.SValues()` and
panics, where `handleReconRequestFull` returns the error; when the lookup
returns a node together with the error, `handleReconRequestPoly` ignores the
error and answers from the node. -/
theorem handleReconRequestPoly_lookup_error :
    treeBroken.Node [false] = (none, some (.other 5))
      ∧ handleReconRequestPoly ⟨treeBroken, ⟨2, 5⟩, lowMBarSolver⟩ [false] 7 [] = .panicked
      ∧ handleReconRequestFull ⟨treeBroken, ⟨2, 5⟩, lowMBarSolver⟩ [false] {zd}
        = .returned (none, none, some (.other 5))
      ∧ handleReconRequestPoly ⟨treeStale, ⟨2, 5⟩, lowMBarSolver⟩ [false] 7 []
        = .returned (some ∅, some (.FullElements {za, zb, zc, zd, ze}), none)
      ∧ handleReconRequestFull ⟨treeStale, ⟨2, 5⟩, lowMBarSolver⟩ [false] {zd}
        = .returned (none, none, some (.other 5)) :=
  ⟨rfl, by decide, by decide, by decide, by decide⟩

/-! ## The ratio vector and the byte form -/

theorem solvexValues_zipWith (sv : Solver) (remoteSamples : List Zp) :
    ∀ localSamples : List Zp, remoteSamples.length ≤ localSamples.length →
      solvexValues sv remoteSamples localSamples
        = .returned (List.zipWith sv.Div remoteSamples localSamples) := by
  induction remoteSamples with
  | nil => intro localSamples _; simp [solvexValues]
  | cons x xs ih =>
    intro localSamples hlen
    cases localSamples with
    | nil => simp at hlen
    | cons y ys =>
      have hlen2 : xs.length ≤ ys.length := by simpa using hlen
      simp [solvexValues, ih ys hlen2]

/-- A difference that fits in 64 bits is computed exactly. -/
theorem subInt_eq_sub (a b : Int) (hlo : -2 ^ 63 ≤ a - b) (hhi : a - b < 2 ^ 63) :
    subInt a b = a - b := by
  unfold subInt wrapInt
  have h : (a - b + 2 ^ 63) % 2 ^ 64 = a - b + 2 ^ 63 :=
    Int.emod_eq_of_lt (by omega) (by omega)
  omega

/-- C16: when the remote sample vector is no longer than the local one, `solvex`
does not panic and returns, unchanged, the result of the solver applied to the
ratio vector, the evaluation points and `remoteSize - localSize` (the Go
difference, which is the exact difference whenever that fits in 64 bits); the
ratio vector has the length of the remote vector and its `i`-th entry is
`Div remoteSamples[i] localSamples[i]`. -/
theorem solvex_ratios (p : Peer) (remoteSamples localSamples : List Zp)
    (remoteSize localSize : Int) (points : List Zp)
    (hlen : remoteSamples.length ≤ localSamples.length) :
    solvex p remoteSamples localSamples remoteSize localSize points
        = .returned (p.conflux.Reconcile (List.zipWith p.conflux.Div remoteSamples localSamples)
            points (subInt remoteSize localSize))
      ∧ (List.zipWith p.conflux.Div remoteSamples localSamples).length = remoteSamples.length
      ∧ (∀ (i : Nat) (x y : Zp), remoteSamples[i]? = some x → localSamples[i]? = some y →
          (List.zipWith p.conflux.Div remoteSamples localSamples)[i]? = some (p.conflux.Div x y))
      ∧ (-2 ^ 63 ≤ remoteSize - localSize → remoteSize - localSize < 2 ^ 63 →
          subInt remoteSize localSize = remoteSize - localSize) := by
  refine ⟨?_, ?_, ?_, subInt_eq_sub remoteSize localSize⟩
  · unfold solvex
    rw [solvexValues_zipWith p.conflux remoteSamples localSamples hlen]
  · simp [List.length_zipWith, hlen]
  · intro i x y hx hy
    simp [List.getElem?_zipWith, hx, hy]

/-- The remote samples `[a, b]` against the local samples `[c, d, e]`. -/
theorem solvex_ratios_witness :
    solvex (peerWith nodeABC fieldSolver) [za, zb] [zc, zd, ze] 5 3 [za]
        = .returned ((peerWith nodeABC fieldSolver).conflux.Reconcile
            (List.zipWith (peerWith nodeABC fieldSolver).conflux.Div [za, zb] [zc, zd, ze])
            [za] (subInt 5 3))
      ∧ (List.zipWith (peerWith nodeABC fieldSolver).conflux.Div [za, zb] [zc, zd, ze]).length
        = [za, zb].length
      ∧ (∀ (i : Nat) (x y : Zp), [za, zb][i]? = some x → [zc, zd, ze][i]? = some y →
          (List.zipWith (peerWith nodeABC fieldSolver).conflux.Div [za, zb] [zc, zd, ze])[i]?
            = some ((peerWith nodeABC fieldSolver).conflux.Div x y))
      ∧ (-2 ^ 63 ≤ (5 : Int) - 3 → (5 : Int) - 3 < 2 ^ 63 → subInt 5 3 = 5 - 3) :=
  solvex_ratios (peerWith nodeABC fieldSolver) [za, zb] [zc, zd, ze] 5 3 [za] (by decide)

theorem digits_sksHigh :
    Nat.digits 256 340282366920938463463374607431768211457
      = [1, 0, 0, 0, 0, 0, 0, 0, 0, 0, 0, 0, 0, 0, 0, 0, 1] := by
  norm_num

theorem digits_sksOne : Nat.digits 256 1 = [1] := by
  norm_num

theorem digits_sks256 : Nat.digits 256 256 = [0, 1] := by
  norm_num

theorem Bytes_injective (z1 z2 : Zp) (hP : z1.P = z2.P) (h : z1.Bytes = z2.Bytes) :
    z1 = z2 := by
  have hd : Nat.digits 256 z1.n = Nat.digits 256 z2.n := List.reverse_injective h
  have hn : z1.n = z2.n := by
    rw [← Nat.ofDigits_digits 256 z1.n, hd, Nat.ofDigits_digits]
  cases z1
  cases z2
  simp_all

/-- The emitted form of an element whose `Bytes()` fit in `SksZpNbytes - 1` bytes:
its `Bytes()` followed by zero bytes up to the length `SksZpNbytes - 1`. -/
theorem emittedBytes_padded (SksZpNbytes : Nat) (z : Zp) (hpos : 0 < SksZpNbytes)
    (hfit : z.Bytes.length ≤ SksZpNbytes - 1) :
    emittedBytes SksZpNbytes z
      = .returned (z.Bytes ++ List.replicate (SksZpNbytes - 1 - z.Bytes.length) 0) := by
  obtain ⟨k, hk⟩ : ∃ k, SksZpNbytes - z.Bytes.length = k + 1 :=
    ⟨SksZpNbytes - z.Bytes.length - 1, by omega⟩
  have hk2 : SksZpNbytes - 1 - z.Bytes.length = k := by omega
  simp only [emittedBytes, elementBytes, hk, hk2]
  rw [List.replicate_succ', ← List.append_assoc, List.dropLast_concat]
  simp

/-- C15, as the claim states it, fails: the elements `1`, `256` and `2^128 + 1`
of the SKS field (modulus `P_SKS`, 17-byte width) are pairwise distinct, all
within the field's range, and `Reconcilate` emits the same 16 bytes for the
three of them. -/
theorem emittedBytes_collision :
    sksOne ≠ sks256 ∧ sksOne ≠ sksHigh ∧ sks256 ≠ sksHigh
      ∧ sksOne.P = sks256.P ∧ sksOne.P = sksHigh.P
      ∧ sksOne.n < sksOne.P ∧ sks256.n < sks256.P ∧ sksHigh.n < sksHigh.P
      ∧ sksHigh.n = 2 ^ 128 + 1
      ∧ emittedBytes 17 sksOne = .returned [1, 0, 0, 0, 0, 0, 0, 0, 0, 0, 0, 0, 0, 0, 0, 0]
      ∧ emittedBytes 17 sks256 = .returned [1, 0, 0, 0, 0, 0, 0, 0, 0, 0, 0, 0, 0, 0, 0, 0]
      ∧ emittedBytes 17 sksHigh
        = .returned [1, 0, 0, 0, 0, 0, 0, 0, 0, 0, 0, 0, 0, 0, 0, 0] := by
  have h1 : sksOne.Bytes = [1] := by
    show (Nat.digits 256 1).reverse = _
    rw [digits_sksOne]
    rfl
  have h2 : sks256.Bytes = [1, 0] := by
    show (Nat.digits 256 256).reverse = _
    rw [digits_sks256]
    rfl
  have h3 : sksHigh.Bytes = [1, 0, 0, 0, 0, 0, 0, 0, 0, 0, 0, 0, 0, 0, 0, 0, 1] := by
    show (Nat.digits 256 340282366920938463463374607431768211457).reverse = _
    rw [digits_sksHigh]
    rfl
  refine ⟨by decide, by decide, by decide, rfl, rfl, by decide, by decide, by decide,
    by decide, ?_, ?_, ?_⟩
  · unfold emittedBytes; rw [h1]; rfl
  · unfold emittedBytes; rw [h2]; rfl
  · unfold emittedBytes; rw [h3]; rfl

/-- C15 (amended): among the elements of one field whose `Bytes()` have one and
the same length, at most `SksZpNbytes - 1` bytes, the byte form `Reconcilate`
emits is reversible: it is the element's `Bytes()` followed by zero bytes up
to the length `SksZpNbytes - 1`, the value is the base-256 value of its first
bytes, and two elements with the same emitted bytes are equal. -/
theorem emittedBytes_reversible (SksZpNbytes : Nat) (z1 z2 : Zp) (hpos : 0 < SksZpNbytes)
    (hfit : z1.Bytes.length ≤ SksZpNbytes - 1)
    (hlen : z1.Bytes.length = z2.Bytes.length)
    (hP : z1.P = z2.P) :
    (∃ bytes, emittedBytes SksZpNbytes z1 = .returned bytes
        ∧ bytes = z1.Bytes ++ List.replicate (SksZpNbytes - 1 - z1.Bytes.length) 0
        ∧ bytes.length = SksZpNbytes - 1
        ∧ Nat.ofDigits 256 (bytes.take z1.Bytes.length).reverse = z1.n)
      ∧ (emittedBytes SksZpNbytes z1 = emittedBytes SksZpNbytes z2 → z1 = z2) := by
  have e1 := emittedBytes_padded SksZpNbytes z1 hpos hfit
  have e2 := emittedBytes_padded SksZpNbytes z2 hpos (hlen ▸ hfit)
  refine ⟨⟨_, e1, rfl, ?_, ?_⟩, fun heq => ?_⟩
  · simp only [List.length_append, List.length_replicate]
    omega
  · rw [List.take_left']
    · simp [Zp.Bytes, Nat.ofDigits_digits]
    · rfl
  · rw [e1, e2] at heq
    have hb : z1.Bytes ++ List.replicate (SksZpNbytes - 1 - z1.Bytes.length) 0
        = z2.Bytes ++ List.replicate (SksZpNbytes - 1 - z2.Bytes.length) 0 := by
      simpa using heq
    exact Bytes_injective z1 z2 hP (List.append_inj hb hlen).1

/-- The elements `a = 1` and `b = 2` of the field of 7 elements, one byte each,
with a width of 17 bytes. -/
theorem emittedBytes_reversible_witness :
    (∃ bytes, emittedBytes 17 za = .returned bytes
        ∧ bytes = za.Bytes ++ List.replicate (17 - 1 - za.Bytes.length) 0
        ∧ bytes.length = 17 - 1
        ∧ Nat.ofDigits 256 (bytes.take za.Bytes.length).reverse = za.n)
      ∧ (emittedBytes 17 za = emittedBytes 17 zb → za = zb) :=
  emittedBytes_reversible 17 za zb (by decide) (by simp [Zp.Bytes, za])
    (by simp [Zp.Bytes, za, zb]) rfl

/-! ## The two call paths -/

theorem solve_eq_solvex (p : Peer) (remoteSamples localSamples : List Zp)
    (remoteSize localSize : Int) (points : List Zp) :
    solve p.gossip remoteSamples localSamples remoteSize localSize points
      = solvex p remoteSamples localSamples remoteSize localSize points := rfl

/-- C17, as the claim states it, fails: on a leaf whose enumeration succeeds,
with a solver that reports insufficient degree through a wrapping error, the
path of `peer_reconcilate.go` (which tests `errgo.Cause(err)`) answers
`FullElements` and the path of `gossip.go` (which tests `err == LowMBar`)
answers `SyncFail`. -/
theorem handlers_disagree_counterexample :
    handleReconRequestPoly (peerWith leaf5 wrappingSolver) [false] 7 []
        = .returned (some ∅, some (.FullElements {za, zb, zc, zd, ze}), none)
      ∧ handleReconRqstPoly (peerWith leaf5 wrappingSolver).gossip [false] 7 []
        = .returned { elements := some ∅, err := none, flush := false,
                      messages := [.SyncFail] }
      ∧ agree (handleReconRequestPoly (peerWith leaf5 wrappingSolver) [false] 7 [])
          (handleReconRqstPoly (peerWith leaf5 wrappingSolver).gossip [false] 7 []) = false := by
  decide

/-- C17 (amended): for the same prefix tree, settings, solver and request, and
whenever the enumeration of the node at the prefix succeeds, the full-request
handlers of the two call paths agree; the poly-request handlers agree provided
every error of the solver whose cause is `ErrLowMBar` is `ErrLowMBar` itself. -/
theorem handlers_agree (p : Peer) (pfx : Bitstring)
    (henum : ∀ node, (p.ptree.Node pfx).1 = some node → ∃ els, node.Elements = .ok els) :
    (∀ elements : ZSet, agree (handleReconRequestFull p pfx elements)
        (handleReconRqstFull p.gossip pfx elements) = true)
      ∧ ((∀ values points delta err, p.conflux.Reconcile values points delta = .error err →
            err.Cause = .ErrLowMBar → err = .ErrLowMBar) →
          ∀ (size : Int) (samples : List Zp), agree (handleReconRequestPoly p pfx size samples)
            (handleReconRqstPoly p.gossip pfx size samples) = true) := by
  rcases hlook : p.ptree.Node pfx with ⟨nodeOpt, err⟩
  rw [hlook] at henum
  simp only at henum
  refine ⟨?_, ?_⟩
  · intro elements
    unfold handleReconRequestFull handleReconRqstFull
    simp only [Peer.gossip, hlook]
    by_cases h1 : err = some Error.ErrNodeNotFound
    · simp [h1, agree]
    · by_cases h2 : err = none
      · subst h2
        cases nodeOpt with
        | none => simp [agree]
        | some node =>
          obtain ⟨els, hel⟩ := henum node rfl
          simp [agree, hel, PrefixNode.gossip]
      · cases err with
        | none => exact absurd rfl h2
        | some e => simp [h1, agree]
  · intro hcause size samples
    unfold handleReconRequestPoly handleReconRqstPoly
    simp only [hlook]
    have hg : p.gossip.Node pfx = (nodeOpt.map PrefixNode.gossip, err) := by
      simp [Peer.gossip, hlook]
    simp only [hg]
    by_cases h1 : err = some Error.ErrNodeNotFound
    · simp [h1, agree]
    · cases nodeOpt with
      | none => simp [h1, agree]
      | some node =>
        obtain ⟨els, hel⟩ := henum node rfl
        simp only [h1, if_false, Option.map_some']
        have hs : solve p.gossip samples node.gossip.SValues size node.gossip.Size
            p.gossip.Points = solvex p samples node.SValues size node.Size p.ptree.Points := rfl
        rw [hs]
        rcases hr : solvex p samples node.SValues size node.Size p.ptree.Points
          with (e | ⟨remoteSet, localSet⟩) | _
        · have hrec : ∃ values points delta, p.conflux.Reconcile values points delta
              = .error e := by
            unfold solvex at hr
            split at hr
            · simp at hr
            · rename_i values _
              simp only [Run.returned.injEq] at hr
              exact ⟨values, _, _, hr⟩
          obtain ⟨values, points, delta, hrec⟩ := hrec
          by_cases hlow : e = Error.ErrLowMBar
          · subst hlow
            by_cases hc : (node.IsLeaf ||
                decide (node.Size < mulInt p.settings.ThreshMult p.settings.MBar)) = true
            · simp [Error.Cause, agree, hel, PrefixNode.gossip, Peer.gossip, hc]
            · simp [Error.Cause, agree, PrefixNode.gossip, Peer.gossip, hc]
          · have hcz : e.Cause ≠ Error.ErrLowMBar :=
              fun h => hlow (hcause values points delta e hrec h)
            simp [hcz, hlow, agree]
        · simp [agree]
        · simp [agree]

/-- A leaf with five elements and a solver that reports `ErrLowMBar` itself: the
two call paths agree on a full request and on a poly request at `[0]`. -/
theorem handlers_agree_witness :
    agree (handleReconRequestFull (peerWith leaf5 lowMBarSolver) [false] {zb, zc, zd})
        (handleReconRqstFull (peerWith leaf5 lowMBarSolver).gossip [false] {zb, zc, zd}) = true
      ∧ agree (handleReconRequestPoly (peerWith leaf5 lowMBarSolver) [false] 7 [])
        (handleReconRqstPoly (peerWith leaf5 lowMBarSolver).gossip [false] 7 []) = true :=
  have henum : ∀ node, ((peerWith leaf5 lowMBarSolver).ptree.Node [false]).1 = some node →
      ∃ els, node.Elements = .ok els := fun node h => by
    have h2 : some leaf5 = some node := h
    cases h2
    exact ⟨[za, zb, zc, zd, ze], rfl⟩
  ⟨(handlers_agree (peerWith leaf5 lowMBarSolver) [false] henum).1 {zb, zc, zd},
   (handlers_agree (peerWith leaf5 lowMBarSolver) [false] henum).2
      (fun _ _ _ err h _ => by
        have h2 : (Except.error Error.ErrLowMBar : Except Error (ZSet × ZSet))
            = Except.error err := h
        cases h2
        rfl) 7 []⟩

end Recon
